import Mathlib

/-!
Verification development for the Holiday Calculation Engine of the
AI-Calendar backend (`app/services/holiday_service.py` and
`app/routes/holiday.py`).

The engine's two external collaborators — the lunar/solar conversion
library (`lunardate`) and the astronomical ephemeris (`ephem`) — are
modelled as oracle parameters, as the specification itself describes
them ("external collaborators, not reimplemented here").  All engine
logic (candidate-year disambiguation, bisection search, floating-date
arithmetic, fixed table, cache and sorting) is embedded from the source.

Python `datetime.date` values are modelled by `PDate` together with
proleptic-Gregorian ordinal arithmetic (`toOrdinal`, the calendar
successor `succD`, which is the semantics of `+ timedelta(days=1)`).
Float arithmetic of the bisection is modelled exactly over `ℚ`, with
`math.pi` replaced by the IEEE-754 double closest to π.
-/

/-- Proleptic Gregorian calendar date, modelling Python `datetime.date`. -/
structure PDate where
  year : Nat
  month : Nat
  day : Nat
deriving DecidableEq, Repr

/-- Gregorian leap-year rule (Python `calendar.isleap`). -/
def isLeapYear (y : Nat) : Bool :=
  y % 4 == 0 && (y % 100 != 0 || y % 400 == 0)

/-- Number of days in a month of a given year. -/
def daysInMonth (y m : Nat) : Nat :=
  if m = 2 then (if isLeapYear y then 29 else 28)
  else if m = 4 ∨ m = 6 ∨ m = 9 ∨ m = 11 then 30 else 31

/-- Days in year `y` strictly before month `m` (for 1-based months). -/
def daysBeforeMonth (y : Nat) : Nat → Nat
  | 0 => 0
  | m + 1 => if m = 0 then 0 else daysBeforeMonth y m + daysInMonth y m

/-- Days before January 1 of year `y` in the proleptic Gregorian calendar. -/
def daysBeforeYear (y : Nat) : Nat :=
  365 * (y - 1) + (y - 1) / 4 - (y - 1) / 100 + (y - 1) / 400

/-- Python `date.toordinal()`: day 1 is 0001-01-01. -/
def toOrdinal (x : PDate) : Nat :=
  daysBeforeYear x.year + daysBeforeMonth x.year x.month + x.day

/-- Python `date.weekday()`: Monday is 0.  0001-01-01 is a Monday. -/
def pyWeekday (x : PDate) : Nat :=
  (toOrdinal x + 6) % 7

/-- Calendar successor: the semantics of `d + timedelta(days=1)` on valid dates. -/
def succD (x : PDate) : PDate :=
  if x.day < daysInMonth x.year x.month then ⟨x.year, x.month, x.day + 1⟩
  else if x.month < 12 then ⟨x.year, x.month + 1, 1⟩
  else ⟨x.year + 1, 1, 1⟩

/-- Calendar predecessor: the semantics of `d - timedelta(days=1)` on valid dates. -/
def predD (x : PDate) : PDate :=
  if 2 ≤ x.day then ⟨x.year, x.month, x.day - 1⟩
  else if 2 ≤ x.month then ⟨x.year, x.month - 1, daysInMonth x.year (x.month - 1)⟩
  else ⟨x.year - 1, 12, 31⟩

/-- The semantics of `d + timedelta(days=k)` for `k ≥ 0`. -/
def addDays (x : PDate) : Nat → PDate
  | 0 => x
  | k + 1 => addDays (succD x) k

/-- Month/day-in-year scan used by the ordinal decoder. -/
def monthScan (y : Nat) : Nat → Nat → Nat → PDate
  | 0, m, n => ⟨y, m, n⟩
  | fuel + 1, m, n =>
      if n ≤ daysInMonth y m then ⟨y, m, n⟩
      else monthScan y fuel (m + 1) (n - daysInMonth y m)

/-- Year scan of the ordinal decoder.  Any 400 consecutive Gregorian
years span exactly 146097 days, so the scan may skip whole cycles; this
only shortens evaluation, the decoded date is unchanged. -/
def ordToDateAux : Nat → Nat → Nat → PDate
  | 0, y, n => ⟨y, 1, n⟩
  | fuel + 1, y, n =>
      if 146097 < n then ordToDateAux fuel (y + 400) (n - 146097)
      else
        let len := if isLeapYear y then 366 else 365
        if n ≤ len then monthScan y 12 1 n
        else ordToDateAux fuel (y + 1) (n - len)

/-- Python `date.fromordinal` (defined for ordinals ≥ 1). -/
def ordToDate (n : Nat) : PDate :=
  ordToDateAux n 1 n

/-- Zero-padded two-digit rendering, as in `strftime` fields `%m` and `%d`. -/
def pad2 (n : Nat) : String :=
  if n < 10 then "0" ++ Nat.repr n else Nat.repr n

/-- Model of `date.strftime("%Y-%m-%d")` (exact for years ≥ 1000, the
only years the specification's claims range over). -/
def formatDate (x : PDate) : String :=
  Nat.repr x.year ++ ("-" ++ (pad2 x.month ++ ("-" ++ pad2 x.day)))

/-- Holiday type enumeration from `app/models/holiday_schemas.py`. -/
inductive HolidayType where
  | national
  | traditional
  | memorial
  | international
deriving DecidableEq, Repr

/-- Holiday record from `app/models/holiday_schemas.py`; `date` is the
`"YYYY-MM-DD"` string exactly as stored by the service. -/
structure Holiday where
  name : String
  date : String
  type : HolidayType
  is_off_day : Bool
  lunar_date : Option String := none
deriving DecidableEq, Repr

/-- External collaborators of the engine: the lunar/solar date oracle
(`lunardate.LunarDate(y,m,d).toSolarDate()` and
`lunardate.LunarDate.fromSolarDate`, `none` modelling a raised
exception / non-existent date) and the ecliptic-longitude oracle
(`ephem`: the sun's apparent ecliptic longitude in radians at a given
Dublin-Julian-Date instant; `none` models a raised exception). -/
structure Oracles where
  toSolar : Nat → Nat → Nat → Option PDate
  fromSolar : PDate → Option (Nat × Nat)
  sunLon : ℚ → Option ℚ

/-- Python `min(xs, key=k)`: first element with minimal key (`none` on `[]`). -/
def pyMinBy (k : α → Nat) : List α → Option α
  | [] => none
  | x :: xs => some (xs.foldl (fun acc y => if k y < k acc then y else acc) x)

/-- `HolidayService.LUNAR_MONTH_NAMES`. -/
def LUNAR_MONTH_NAMES : List String :=
  ["", "正月", "二月", "三月", "四月", "五月", "六月",
   "七月", "八月", "九月", "十月", "十一月", "臘月"]

/-- `HolidayService.LUNAR_DAY_NAMES`. -/
def LUNAR_DAY_NAMES : List String :=
  ["", "初一", "初二", "初三", "初四", "初五", "初六", "初七", "初八", "初九", "初十",
   "十一", "十二", "十三", "十四", "十五", "十六", "十七", "十八", "十九", "二十",
   "廿一", "廿二", "廿三", "廿四", "廿五", "廿六", "廿七", "廿八", "廿九", "三十"]

/-- Display label `LUNAR_MONTH_NAMES[m] + LUNAR_DAY_NAMES[d]`; `none`
models the `IndexError` path (caught by the caller, holiday dropped). -/
def lunarLabelOf (m d : Nat) : Option String :=
  match LUNAR_MONTH_NAMES[m]?, LUNAR_DAY_NAMES[d]? with
  | some ms, some ds => some (ms ++ ds)
  | _, _ => none

/-- The candidate conversions tried by `_lunar_to_solar`: lunar years
`[solar_year - 1, solar_year]`, keeping those the oracle can convert. -/
def lunarCandidates (O : Oracles) (solarYear m d : Nat) : List PDate :=
  [solarYear - 1, solarYear].filterMap (fun ly => O.toSolar ly m d)

/-- `HolidayService._lunar_to_solar`: return the first candidate landing
in the target solar year, else the candidate with year numerically
closest to the target (`min(candidates, key=...)`), else `none`. -/
def lunarToSolar (O : Oracles) (solarYear m d : Nat) : Option PDate :=
  match (lunarCandidates O solarYear m d).find? (fun sd => sd.year == solarYear) with
  | some sd => some sd
  | none =>
      pyMinBy (fun sd => ((sd.year : Int) - (solarYear : Int)).natAbs)
        (lunarCandidates O solarYear m d)

/-- The lunar holiday table of `HolidayService._get_lunar_holidays`:
(lunar month, lunar day, name, type, is-off-day). -/
def lunarHolidaysDef : List (Nat × Nat × String × HolidayType × Bool) :=
  [(1, 1, "春節", .traditional, true),
   (1, 2, "初二", .traditional, true),
   (1, 3, "初三", .traditional, true),
   (1, 15, "元宵節", .traditional, false),
   (5, 5, "端午節", .traditional, true),
   (7, 7, "七夕", .traditional, false),
   (7, 15, "中元節", .traditional, false),
   (8, 15, "中秋節", .traditional, true),
   (9, 9, "重陽節", .traditional, false)]

/-- `HolidayService._get_lunar_holidays`: resolve every table entry
(dropping an entry whose conversion fails), then append 除夕 (Lunar New
Year's Eve) as the day before the resolved 春節, with a lunar label
obtained by converting that solar date back through the oracle. -/
def getLunarHolidays (O : Oracles) (year : Nat) : List Holiday :=
  let base := lunarHolidaysDef.filterMap (fun e =>
    match e with
    | (lm, ld, nm, ty, off) =>
      match lunarToSolar O year lm ld with
      | some sd =>
          (lunarLabelOf lm ld).map (fun lab =>
            { name := nm, date := formatDate sd, type := ty,
              is_off_day := off, lunar_date := some lab })
      | none => none)
  let eve :=
    match lunarToSolar O year 1 1 with
    | some sf =>
        match O.fromSolar (predD sf) with
        | some (lm, ld) =>
            match lunarLabelOf lm ld with
            | some lab =>
                [{ name := "除夕", date := formatDate (predD sf), type := .traditional,
                   is_off_day := true, lunar_date := some lab }]
            | none => []
        | none => []
    | none => []
  base ++ eve

/-- The IEEE-754 double closest to π, the value of Python `math.pi`. -/
def piF : ℚ := 884279719003555 / 281474976710656

/-- `math.radians` over exact rationals. -/
def radiansQ (x : ℚ) : ℚ := x * piF / 180

/-- Circular normalization of the longitude difference, exactly as in
`_calculate_solar_term`: subtract or add a full turn when the difference
exceeds π or falls below −π (radians). -/
def normDiff (d : ℚ) : ℚ :=
  if piF < d then d - 2 * piF
  else if d < -piF then d + 2 * piF
  else d

/-- The bisection loop of `_calculate_solar_term` (`for _ in range(50)`):
returns the midpoint on convergence, the final bracket's midpoint on
fuel exhaustion, and `none` only when the longitude oracle fails. -/
def stRun (lon : ℚ → Option ℚ) (tR : ℚ) : Nat → ℚ → ℚ → Option ℚ
  | 0, low, high => some ((low + high) / 2)
  | fuel + 1, low, high =>
      match lon ((low + high) / 2) with
      | none => none
      | some cl =>
          let diff := normDiff (cl - tR)
          if |diff| < 1 / 10000 then some ((low + high) / 2)
          else if 0 < diff then stRun lon tR fuel low ((low + high) / 2)
          else stRun lon tR fuel ((low + high) / 2) high

/-- The bracket left by the bisection loop when it stops (same traversal
as `stRun`; frozen on convergence or oracle failure). -/
def stTrace (lon : ℚ → Option ℚ) (tR : ℚ) : Nat → ℚ → ℚ → ℚ × ℚ
  | 0, low, high => (low, high)
  | fuel + 1, low, high =>
      match lon ((low + high) / 2) with
      | none => (low, high)
      | some cl =>
          let diff := normDiff (cl - tR)
          if |diff| < 1 / 10000 then (low, high)
          else if 0 < diff then stTrace lon tR fuel low ((low + high) / 2)
          else stTrace lon tR fuel ((low + high) / 2) high

/-- Whether some iteration of the bisection loop reaches the precision
threshold. -/
def stConvergedB (lon : ℚ → Option ℚ) (tR : ℚ) : Nat → ℚ → ℚ → Bool
  | 0, _, _ => false
  | fuel + 1, low, high =>
      match lon ((low + high) / 2) with
      | none => false
      | some cl =>
          let diff := normDiff (cl - tR)
          if |diff| < 1 / 10000 then true
          else if 0 < diff then stConvergedB lon tR fuel low ((low + high) / 2)
          else stConvergedB lon tR fuel ((low + high) / 2) high

/-- Dublin Julian Date of midnight of the date with the given ordinal:
`ephem.Date(d)` for a Python `date d` (DJD 0 is 1899-12-31 12:00, and
`toOrdinal 1899-12-31 = 693595`). -/
def ephemOfOrd (o : Int) : ℚ := (o : ℚ) - 693595 - 1 / 2

/-- Ordinal of the calendar date containing a DJD instant:
`ephem.Date(q).datetime().date().toordinal()`. -/
def ephemToOrd (q : ℚ) : Int := Rat.floor (q + 693595 + 1 / 2)

/-- Conversion of a DJD instant to a `PDate`; `none` models the
`datetime` range error for non-positive ordinals. -/
def ephemDate (q : ℚ) : Option PDate :=
  let o := ephemToOrd q
  if o < 1 then none else some (ordToDate o.toNat)

/-- `HolidayService._calculate_solar_term`: seed a season-dependent
start date, bisect the sun's ecliptic longitude over a ±45-day bracket
for at most 50 iterations, and convert the resulting instant to a date.
The guard for `year = 0` models the `ValueError` of `date(year, m, 1)`
(caught, returning `None`). -/
def calculateSolarTerm (lon : ℚ → Option ℚ) (year : Nat) (targetLongitude : ℚ) :
    Option PDate :=
  if year < 1 then none
  else
    let startDate : PDate :=
      if targetLongitude < 90 then ⟨year, 3, 1⟩
      else if targetLongitude < 180 then ⟨year, 6, 1⟩
      else if targetLongitude < 270 then ⟨year, 9, 1⟩
      else ⟨year, 12, 1⟩
    let low := ephemOfOrd ((toOrdinal startDate : Int) - 45)
    let high := ephemOfOrd ((toOrdinal startDate : Int) + 45)
    (stRun lon (radiansQ targetLongitude) 50 low high).bind ephemDate

/-- `HolidayService._get_solar_term_holidays`: 清明 at longitude 15°,
冬至 at longitude 270°. -/
def getSolarTermHolidays (lon : ℚ → Option ℚ) (year : Nat) : List Holiday :=
  (match calculateSolarTerm lon year 15 with
   | some d =>
       [{ name := "清明節", date := formatDate d, type := .traditional,
          is_off_day := true }]
   | none => []) ++
  (match calculateSolarTerm lon year 270 with
   | some d =>
       [{ name := "冬至", date := formatDate d, type := .traditional,
          is_off_day := false }]
   | none => [])

/-- `HolidayService._get_nth_weekday_of_month` for `n ≥ 1` (the
documented domain, `1=第一個`): find the first occurrence of the target
weekday on/after the 1st, advance `n - 1` weeks, and return the result
only if its month is unchanged.  The guard models the `ValueError` of
`date(year, month, 1)` for invalid inputs (caught, returning `None`). -/
def getNthWeekdayOfMonth (year month weekday n : Nat) : Option PDate :=
  if year < 1 ∨ month < 1 ∨ 12 < month then none
  else
    let firstDay : PDate := ⟨year, month, 1⟩
    let daysUntilWeekday := (weekday + 7 - pyWeekday firstDay) % 7
    let firstTarget := addDays firstDay daysUntilWeekday
    let result := addDays firstTarget (7 * (n - 1))
    if result.month = month then some result else none

/-- `HolidayService._get_floating_holidays`: 母親節, the second Sunday of
May (`weekday 6`). -/
def getFloatingHolidays (year : Nat) : List Holiday :=
  match getNthWeekdayOfMonth year 5 6 2 with
  | some d =>
      [{ name := "母親節", date := formatDate d, type := .memorial,
         is_off_day := false }]
  | none => []

/-- `HolidayService._get_fixed_holidays`: the static table; each `date`
is the f-string `f"{year}-MM-DD"`. -/
def getFixedHolidays (year : Nat) : List Holiday :=
  [{ name := "元旦", date := Nat.repr year ++ "-01-01", type := .national, is_off_day := true },
   { name := "和平紀念日", date := Nat.repr year ++ "-02-28", type := .national, is_off_day := true },
   { name := "兒童節", date := Nat.repr year ++ "-04-04", type := .national, is_off_day := true },
   { name := "勞動節", date := Nat.repr year ++ "-05-01", type := .national, is_off_day := true },
   { name := "國慶日", date := Nat.repr year ++ "-10-10", type := .national, is_off_day := true },
   { name := "婦女節", date := Nat.repr year ++ "-03-08", type := .memorial, is_off_day := false },
   { name := "植樹節", date := Nat.repr year ++ "-03-12", type := .memorial, is_off_day := false },
   { name := "青年節", date := Nat.repr year ++ "-03-29", type := .memorial, is_off_day := false },
   { name := "父親節", date := Nat.repr year ++ "-08-08", type := .memorial, is_off_day := false },
   { name := "教師節", date := Nat.repr year ++ "-09-28", type := .memorial, is_off_day := false },
   { name := "光復節", date := Nat.repr year ++ "-10-25", type := .memorial, is_off_day := false },
   { name := "行憲紀念日", date := Nat.repr year ++ "-12-25", type := .national, is_off_day := false },
   { name := "跨年夜", date := Nat.repr year ++ "-12-31", type := .memorial, is_off_day := false }]

/-- The per-service cache `self._cache`, a dict keyed by `f"{region}_{year}"`;
modelled as an association list where insertion prepends (lookup takes the
most recent binding, matching dict assignment). -/
def cacheLookup (c : List (String × List Holiday)) (k : String) : Option (List Holiday) :=
  (c.find? (fun p => p.1 == k)).map (fun p => p.2)

/-- Lexicographic comparison of character lists by code point — the
semantics of Python string `<=`. -/
def charListLe : List Char → List Char → Bool
  | [], _ => true
  | _ :: _, [] => false
  | a :: as, b :: bs => if a < b then true else if b < a then false else charListLe as bs

/-- Python string comparison (code-point lexicographic). -/
def strLe (a b : String) : Bool := charListLe a.data b.data

/-- The sort key relation of `holidays.sort(key=lambda h: h.date)`:
Python compares the date strings lexicographically. -/
def dateOrder (a b : Holiday) : Prop := strLe a.date b.date = true

instance : DecidableRel dateOrder := fun a b => instDecidableEqBool _ _

def charListLe_total : ∀ as bs, charListLe as bs = true ∨ charListLe bs as = true := by
  intro as
  induction as with
  | nil => intro bs; left; rfl
  | cons a as ih =>
    intro bs
    cases bs with
    | nil => right; rfl
    | cons b bs =>
      by_cases hab : a < b
      · left; simp [charListLe, hab]
      · by_cases hba : b < a
        · right; simp [charListLe, hba, hab]
        · have he : a = b := Char.le_antisymm (le_of_not_lt hba) (le_of_not_lt hab)
          subst he
          rcases ih bs with h | h
          · left; simp [charListLe, hab, h]
          · right; simp [charListLe, hab, h]

def charListLe_trans : ∀ as bs cs, charListLe as bs = true → charListLe bs cs = true →
    charListLe as cs = true := by
  intro as
  induction as with
  | nil => intro bs cs _ _; rfl
  | cons a as ih =>
    intro bs cs h1 h2
    cases bs with
    | nil => simp [charListLe] at h1
    | cons b bs =>
      cases cs with
      | nil => simp [charListLe] at h2
      | cons c cs =>
        simp only [charListLe] at h1 h2 ⊢
        by_cases hab : a < b <;> by_cases hbc : b < c
        · have hac : a < c := lt_trans hab hbc
          simp [hac]
        · have hbc' : ¬ c < b := by
            intro hcb
            simp [hbc, hcb] at h2
          have he : b = c := Char.le_antisymm (le_of_not_lt hbc') (le_of_not_lt hbc)
          subst he
          simp [hab]
        · have hba : ¬ b < a := by
            intro hba
            simp [hab, hba] at h1
          have he : a = b := Char.le_antisymm (le_of_not_lt hba) (le_of_not_lt hab)
          subst he
          simp [hbc]
        · have hba : ¬ b < a := by
            intro hba
            simp [hab, hba] at h1
          have hcb : ¬ c < b := by
            intro hcb
            simp [hbc, hcb] at h2
          have he : a = b := Char.le_antisymm (le_of_not_lt hba) (le_of_not_lt hab)
          have he2 : b = c := Char.le_antisymm (le_of_not_lt hcb) (le_of_not_lt hbc)
          subst he; subst he2
          simp [hab] at h1 h2 ⊢
          exact ih _ _ h1 h2

instance : IsTotal Holiday dateOrder := ⟨fun a b => charListLe_total _ _⟩

instance : IsTrans Holiday dateOrder := ⟨fun _ _ _ => charListLe_trans _ _ _⟩

/-- `HolidayService.get_holidays_for_year`: cache hit returns the stored
list unchanged; otherwise compute the four component lists for
`"taiwan"` (empty for any other region), sort by date string, store, and
return.  State passing makes the cache explicit; Python's stable
`list.sort` is modelled by the stable `List.insertionSort`. -/
def getHolidaysForYear (O : Oracles) (cache : List (String × List Holiday))
    (year : Nat) (region : String) : List Holiday × List (String × List Holiday) :=
  let cacheKey := region ++ "_" ++ Nat.repr year
  match cacheLookup cache cacheKey with
  | some hs => (hs, cache)
  | none =>
      let holidays :=
        if region == "taiwan" then
          getFixedHolidays year ++ getLunarHolidays O year ++
            getSolarTermHolidays O.sunLon year ++ getFloatingHolidays year
        else []
      let sortedH := holidays.insertionSort dateOrder
      (sortedH, (cacheKey, sortedH) :: cache)

/-- Response model of `GET /holidays/{year}` (generation timestamp elided:
it is wall-clock metadata, not engine output). -/
structure HolidaysResponse where
  year : Nat
  region : String
  holidays : List Holiday
deriving DecidableEq, Repr

/-- Route handler `get_holidays_by_year` of `app/routes/holiday.py`:
validates the year range and the region, raising `HTTPException(400)`
(modelled as `Except.error` with the status code) before invoking the
engine. -/
def getHolidaysByYear (O : Oracles) (cache : List (String × List Holiday))
    (year : Nat) (region : String) :
    Except (Nat × String) (HolidaysResponse × List (String × List Holiday)) :=
  if year < 1900 ∨ 2100 < year then
    .error (400, "年份必須在 1900-2100 之間")
  else if ¬ (region ∈ ["taiwan"]) then
    .error (400, "不支援的地區: " ++ region)
  else
    let r := getHolidaysForYear O cache year region
    .ok (⟨year, region, r.1⟩, r.2)

/-! ## Concrete instantiation data and specification-side definitions -/

/-- A closed stand-in oracle triple (all calls fail), used to
instantiate theorems at concrete inputs. -/
def dummyOracles : Oracles :=
  { toSolar := fun _ _ _ => none, fromSolar := fun _ => none, sunLon := fun _ => none }

/-- Real `lunardate` conversions for lunar year 2025 (month, day, solar
date), used to instantiate oracle-parameterized theorems. -/
def lunarPairs2025 : List (Nat × Nat × PDate) :=
  [(1, 1, ⟨2025, 1, 29⟩), (1, 2, ⟨2025, 1, 30⟩), (1, 3, ⟨2025, 1, 31⟩),
   (1, 15, ⟨2025, 2, 12⟩), (5, 5, ⟨2025, 5, 31⟩), (7, 7, ⟨2025, 8, 29⟩),
   (7, 15, ⟨2025, 9, 6⟩), (8, 15, ⟨2025, 10, 6⟩), (9, 9, ⟨2025, 10, 29⟩)]

/-- A concrete oracle triple for the query year 2025: lunar conversions
from the table above, the reverse conversion for Lunar New Year's Eve
(2025-01-28 is lunar 12/29), and a longitude oracle that answers 15° in
the spring window and 270° later in the year. -/
def oracles2025 : Oracles :=
  { toSolar := fun ly m d =>
      if ly = 2025 then
        (lunarPairs2025.find? (fun e => e.1 == m && e.2.1 == d)).map (fun e => e.2.2)
      else none,
    fromSolar := fun pd => if pd = ⟨2025, 1, 28⟩ then some (12, 29) else none,
    sunLon := fun q => some (if q < 45900 then radiansQ 15 else radiansQ 270) }

/-- Closed constant longitude oracle used to instantiate the bisection
theorems. -/
def lonConst : ℚ → Option ℚ := fun _ => some 0

/-- Season anchor table following the specification's wording: the
target longitude quadrant is anchored at a fixed calendar month (March,
June, September or December 1st of the query year). -/
def specSeasonAnchor (year : Nat) (targetLongitude : ℚ) : PDate :=
  if targetLongitude < 90 then ⟨year, 3, 1⟩
  else if targetLongitude < 180 then ⟨year, 6, 1⟩
  else if targetLongitude < 270 then ⟨year, 9, 1⟩
  else ⟨year, 12, 1⟩

/-- Successor month (year included): the calendar step from the first of
one month to the first of the next. -/
def nextMY (y m : Nat) : Nat × Nat :=
  if m < 12 then (y, m + 1) else (y + 1, 1)

/-- Walking a day offset month by month from the first of a month. -/
def monthWalk : Nat → Nat → Nat → Nat → PDate
  | 0, y, m, k => ⟨y, m, k + 1⟩
  | fuel + 1, y, m, k =>
      if k < daysInMonth y m then ⟨y, m, k + 1⟩
      else monthWalk fuel (nextMY y m).1 (nextMY y m).2 (k - daysInMonth y m)

/-- Total number of days covered by `fuel` consecutive months starting
at month `m` of year `y`. -/
def windowLen : Nat → Nat → Nat → Nat
  | 0, _, _ => 0
  | fuel + 1, y, m => daysInMonth y m + windowLen fuel (nextMY y m).1 (nextMY y m).2

/-- Month value reached after `j` calendar-month steps from month `m`. -/
def mVal (j m : Nat) : Nat := ((m - 1 + j) % 12) + 1

/-- Specification-side list of day numbers of the month on which the
requested weekday falls (the "occurrences" of that weekday). -/
def specOccurrences (y mo wd : Nat) : List Nat :=
  (List.range' 1 (daysInMonth y mo)).filter (fun d => pyWeekday ⟨y, mo, d⟩ == wd)

/-! ## Cache behaviour (claims about `get_holidays_for_year`) -/

/-- Looking up the key just inserted finds the inserted value. -/
theorem cacheLookup_insert (c : List (String × List Holiday)) (k : String) (v : List Holiday) :
    cacheLookup ((k, v) :: c) k = some v := by
  simp [cacheLookup, List.find?]

/-- C2: for every oracle, cache state, region and year, the second of two
successive calls returns exactly the first call's result with the cache
unchanged, and that result is precisely the value stored in the cache
under the `(region, year)` key — the shallow rendering of "the second
call returns the physically stored list". -/
theorem getHolidaysForYear_idempotent (O : Oracles) (c : List (String × List Holiday))
    (year : Nat) (region : String) :
    getHolidaysForYear O (getHolidaysForYear O c year region).2 year region
        = ((getHolidaysForYear O c year region).1, (getHolidaysForYear O c year region).2)
      ∧ cacheLookup (getHolidaysForYear O c year region).2 (region ++ "_" ++ Nat.repr year)
        = some (getHolidaysForYear O c year region).1 := by
  unfold getHolidaysForYear
  cases h : cacheLookup c (region ++ "_" ++ Nat.repr year) with
  | some hs => simp [h]
  | none => simp [h, cacheLookup_insert]

/-- C10: an unrecognized region is not an error in the engine: with no
cached entry, the call returns the empty list, stores it under the
`(region, year)` key, and a subsequent call is a pure cache hit. -/
theorem getHolidaysForYear_unknown_region (O : Oracles) (c : List (String × List Holiday))
    (year : Nat) (region : String) (hr : region ≠ "taiwan")
    (hc : cacheLookup c (region ++ "_" ++ Nat.repr year) = none) :
    getHolidaysForYear O c year region
        = ([], (region ++ "_" ++ Nat.repr year, []) :: c)
      ∧ getHolidaysForYear O ((region ++ "_" ++ Nat.repr year, []) :: c) year region
        = ([], (region ++ "_" ++ Nat.repr year, []) :: c) := by
  have hrb : (region == "taiwan") = false := by simpa using hr
  constructor
  · unfold getHolidaysForYear
    simp [hc, hrb]
  · unfold getHolidaysForYear
    simp [cacheLookup_insert]

/-- C10 witness: concrete instance for region "japan", year 2025,
starting from the empty cache. -/
theorem getHolidaysForYear_unknown_region_witness :
    getHolidaysForYear dummyOracles [] 2025 "japan" = ([], [("japan_2025", [])]) := by
  have h := (getHolidaysForYear_unknown_region dummyOracles [] 2025 "japan"
    (by decide) rfl).1
  exact h

/-- C3 counterexample: at the concrete input (region "japan", year 2025)
the engine call `get_holidays_for_year` returns normally — the empty
list — rather than raising any error, refuting the claim that an
unrecognized region makes `get_holidays_for_year` itself raise. -/
theorem getHolidaysForYear_unknown_region_no_error :
    (getHolidaysForYear dummyOracles [] 2025 "japan").1 = [] := by decide

/-- C3 (amended): the hard 400 error for an unrecognized region is
raised by the route handler `get_holidays_by_year` before the engine is
invoked; for a supported region (and in-range year) the route cannot
fail and returns the engine's result. -/
theorem getHolidaysByYear_region_check (O : Oracles) (c : List (String × List Holiday))
    (year : Nat) (region : String) (hy1 : 1900 ≤ year) (hy2 : year ≤ 2100) :
    (region ≠ "taiwan" →
      getHolidaysByYear O c year region = .error (400, "不支援的地區: " ++ region))
    ∧ (region = "taiwan" →
      getHolidaysByYear O c year region
        = .ok (⟨year, region, (getHolidaysForYear O c year region).1⟩,
               (getHolidaysForYear O c year region).2)) := by
  have hy : ¬ (year < 1900 ∨ 2100 < year) := by omega
  constructor
  · intro hr
    unfold getHolidaysByYear
    simp [hy, hr]
  · intro hr
    unfold getHolidaysByYear
    simp [hy, hr]

/-- C3 witness for the amended claim: the concrete route call for region
"japan" (year 2025) surfaces the 400 error. -/
theorem getHolidaysByYear_region_check_witness :
    getHolidaysByYear dummyOracles [] 2025 "japan" = .error (400, "不支援的地區: japan") := by
  have h := (getHolidaysByYear_region_check dummyOracles [] 2025 "japan"
    (by decide) (by decide)).1 (by decide)
  exact h

/-! ## C9: `lunar_date` is set iff the holiday is lunar-derived -/

/-- Fixed-table holidays carry no lunar label. -/
theorem getFixedHolidays_no_lunar (y : Nat) :
    ∀ h ∈ getFixedHolidays y, h.lunar_date = none := by
  intro h hh
  fin_cases hh <;> rfl

/-- Solar-term holidays carry no lunar label. -/
theorem getSolarTermHolidays_no_lunar (lon : ℚ → Option ℚ) (y : Nat) :
    ∀ h ∈ getSolarTermHolidays lon y, h.lunar_date = none := by
  intro h hh
  unfold getSolarTermHolidays at hh
  rcases List.mem_append.mp hh with hh | hh <;> (split at hh <;> simp_all)

/-- Floating holidays carry no lunar label. -/
theorem getFloatingHolidays_no_lunar (y : Nat) :
    ∀ h ∈ getFloatingHolidays y, h.lunar_date = none := by
  intro h hh
  unfold getFloatingHolidays at hh
  split at hh <;> simp_all

/-- Every holiday produced by the lunar resolver carries a lunar label. -/
theorem getLunarHolidays_has_lunar (O : Oracles) (y : Nat) :
    ∀ h ∈ getLunarHolidays O y, h.lunar_date.isSome := by
  intro h hh
  unfold getLunarHolidays at hh
  rcases List.mem_append.mp hh with hh | hh
  · rcases List.mem_filterMap.mp hh with ⟨e, _, hfe⟩
    rcases e with ⟨lm, ld, nm, ty, off⟩
    simp only at hfe
    split at hfe
    · rcases Option.map_eq_some'.mp hfe with ⟨lab, _, hlab⟩
      subst hlab; rfl
    · exact absurd hfe (by simp)
  · cases h1 : lunarToSolar O y 1 1 with
    | none => simp only [h1] at hh; simp at hh
    | some sf =>
      simp only [h1] at hh
      cases h2 : O.fromSolar (predD sf) with
      | none => simp only [h2] at hh; simp at hh
      | some p =>
        rcases p with ⟨lm, ld⟩
        simp only [h2] at hh
        cases h3 : lunarLabelOf lm ld with
        | none => simp only [h3] at hh; simp at hh
        | some lab =>
          simp only [h3] at hh
          simp at hh
          subst hh; rfl

/-- C9: in any freshly computed result set, a holiday's `lunar_date`
field is set if and only if the holiday was produced by the lunar
resolver; fixed, solar-term and floating holidays never carry one. -/
theorem lunar_label_iff_lunar_source (O : Oracles) (c : List (String × List Holiday))
    (year : Nat) (region : String)
    (hc : cacheLookup c (region ++ "_" ++ Nat.repr year) = none) :
    ∀ h ∈ (getHolidaysForYear O c year region).1,
      (h.lunar_date.isSome ↔ h ∈ getLunarHolidays O year) := by
  intro h hh
  unfold getHolidaysForYear at hh
  simp only [hc] at hh
  by_cases hr : (region == "taiwan") = true
  · rw [if_pos hr] at hh
    have hm := (List.perm_insertionSort dateOrder _).mem_iff.mp hh
    constructor
    · intro hsome
      rcases List.mem_append.mp hm with hm' | hm'
      · rcases List.mem_append.mp hm' with hm'' | hm''
        · rcases List.mem_append.mp hm'' with hm3 | hm3
          · exact absurd hsome (by rw [getFixedHolidays_no_lunar year h hm3]; simp)
          · exact hm3
        · exact absurd hsome
            (by rw [getSolarTermHolidays_no_lunar O.sunLon year h hm'']; simp)
      · exact absurd hsome (by rw [getFloatingHolidays_no_lunar year h hm']; simp)
    · intro hl
      exact getLunarHolidays_has_lunar O year h hl
  · rw [if_neg hr] at hh
    simp at hh

/-- C9 witness: the fixed New Year's Day holiday of 2025 (present in the
computed result set) has no lunar label and indeed is not a lunar
holiday. -/
theorem lunar_label_iff_lunar_source_witness :
    (({ name := "元旦", date := "2025-01-01", type := .national,
        is_off_day := true, lunar_date := none } : Holiday).lunar_date.isSome
      ↔ ({ name := "元旦", date := "2025-01-01", type := .national,
           is_off_day := true, lunar_date := none } : Holiday)
          ∈ getLunarHolidays dummyOracles 2025) := by
  exact lunar_label_iff_lunar_source dummyOracles [] 2025 "taiwan" rfl _ (by decide)

/-! ## C4: candidate-year disambiguation of `_lunar_to_solar` -/

/-- Python `min(xs, key=k)` returns an element of the list whose key is
minimal (the first such element). -/
theorem pyMinBy_spec (k : α → Nat) (x : α) (xs : List α) :
    ∃ z, pyMinBy k (x :: xs) = some z ∧ z ∈ x :: xs ∧ ∀ w ∈ x :: xs, k z ≤ k w := by
  suffices haux : ∀ (ys : List α) (a : α),
      (ys.foldl (fun acc y => if k y < k acc then y else acc) a) ∈ a :: ys ∧
      ∀ w ∈ a :: ys, k (ys.foldl (fun acc y => if k y < k acc then y else acc) a) ≤ k w by
    exact ⟨_, rfl, (haux xs x).1, (haux xs x).2⟩
  intro ys
  induction ys with
  | nil =>
    intro a
    constructor
    · simp
    · intro w hw
      simp at hw
      subst hw
      exact le_refl _
  | cons y ys ih =>
    intro a
    simp only [List.foldl_cons]
    rcases ih (if k y < k a then y else a) with ⟨ihm, ihb⟩
    constructor
    · rcases List.mem_cons.mp ihm with hm | hm
      · rw [hm]
        by_cases hk : k y < k a <;> simp [hk]
      · simp [hm]
    · intro w hw
      rcases List.mem_cons.mp hw with hw | hw
      · rw [hw]
        refine le_trans (ihb _ (List.mem_cons_self _ _)) ?_
        by_cases hk : k y < k a <;> simp [hk]
        omega
      · rcases List.mem_cons.mp hw with hw | hw
        · rw [hw]
          refine le_trans (ihb _ (List.mem_cons_self _ _)) ?_
          by_cases hk : k y < k a <;> simp [hk]
          omega
        · exact ihb _ (List.mem_cons_of_mem _ hw)

/-- Decomposition of the lunar resolver's output: every produced holiday
is either a resolved table entry or the derived 除夕. -/
theorem getLunarHolidays_cases (O : Oracles) (y : Nat) (h : Holiday)
    (hh : h ∈ getLunarHolidays O y) :
    (∃ lm ld nm ty off sd lab, (lm, ld, nm, ty, off) ∈ lunarHolidaysDef ∧
       lunarToSolar O y lm ld = some sd ∧ lunarLabelOf lm ld = some lab ∧
       h = { name := nm, date := formatDate sd, type := ty, is_off_day := off,
             lunar_date := some lab })
    ∨ (∃ sf lm ld lab, lunarToSolar O y 1 1 = some sf ∧
        O.fromSolar (predD sf) = some (lm, ld) ∧ lunarLabelOf lm ld = some lab ∧
        h = { name := "除夕", date := formatDate (predD sf), type := .traditional,
              is_off_day := true, lunar_date := some lab }) := by
  unfold getLunarHolidays at hh
  rcases List.mem_append.mp hh with hh | hh
  · rcases List.mem_filterMap.mp hh with ⟨e, he, hfe⟩
    rcases e with ⟨lm, ld, nm, ty, off⟩
    simp only at hfe
    left
    cases hls : lunarToSolar O y lm ld with
    | none => rw [hls] at hfe; exact absurd hfe (by simp)
    | some sd =>
      rw [hls] at hfe
      rcases Option.map_eq_some'.mp hfe with ⟨lab, hlab, hrec⟩
      exact ⟨lm, ld, nm, ty, off, sd, lab, he, hls, hlab, hrec.symm⟩
  · right
    cases h1 : lunarToSolar O y 1 1 with
    | none => simp only [h1] at hh; simp at hh
    | some sf =>
      simp only [h1] at hh
      cases h2 : O.fromSolar (predD sf) with
      | none => simp only [h2] at hh; simp at hh
      | some p =>
        rcases p with ⟨lm, ld⟩
        simp only [h2] at hh
        cases h3 : lunarLabelOf lm ld with
        | none => simp only [h3] at hh; simp at hh
        | some lab =>
          simp only [h3] at hh
          simp at hh
          exact ⟨sf, lm, ld, lab, rfl, h2, h3, hh⟩

/-- C4: `_lunar_to_solar` (i) consults the oracle only at the candidate
lunar years `year - 1` and `year`; (ii) returns a candidate landing in
the target solar year whenever one exists; (iii) if candidates exist but
none lands in the target year, returns a candidate whose year-distance
to the target is minimal; (iv) returns `none` when neither candidate
exists, in which case (v) that table entry's holiday is omitted from the
lunar result list (while the computation still returns normally). -/
theorem lunarToSolar_disambiguation (O : Oracles) (y m d : Nat) :
    (∀ O' : Oracles, O'.toSolar (y - 1) m d = O.toSolar (y - 1) m d →
       O'.toSolar y m d = O.toSolar y m d →
       lunarToSolar O' y m d = lunarToSolar O y m d)
    ∧ (∀ x ∈ lunarCandidates O y m d, x.year = y →
       ∃ sd, lunarToSolar O y m d = some sd ∧ sd.year = y ∧
         sd ∈ lunarCandidates O y m d)
    ∧ (lunarCandidates O y m d ≠ [] → (∀ x ∈ lunarCandidates O y m d, x.year ≠ y) →
       ∃ sd, lunarToSolar O y m d = some sd ∧ sd ∈ lunarCandidates O y m d ∧
         ∀ x ∈ lunarCandidates O y m d,
           ((sd.year : Int) - (y : Int)).natAbs ≤ ((x.year : Int) - (y : Int)).natAbs)
    ∧ (O.toSolar (y - 1) m d = none → O.toSolar y m d = none →
       lunarToSolar O y m d = none)
    ∧ (∀ nm ty off, (m, d, nm, ty, off) ∈ lunarHolidaysDef →
       lunarToSolar O y m d = none →
       ∀ h ∈ getLunarHolidays O y, h.name ≠ nm) := by
  refine ⟨?_, ?_, ?_, ?_, ?_⟩
  · intro O' h1 h2
    unfold lunarToSolar lunarCandidates
    simp only [List.filterMap_cons, List.filterMap_nil, h1, h2]
  · intro x hx hxy
    have hex : ∃ z ∈ lunarCandidates O y m d, (fun sd => sd.year == y) z = true :=
      ⟨x, hx, by simp [hxy]⟩
    rcases Option.isSome_iff_exists.mp (List.find?_isSome.mpr hex) with ⟨z, hz⟩
    refine ⟨z, ?_, ?_, List.mem_of_find?_eq_some hz⟩
    · unfold lunarToSolar
      rw [hz]
    · have := List.find?_some hz
      simpa using this
  · intro hne hall
    have hfn : (lunarCandidates O y m d).find? (fun sd => sd.year == y) = none := by
      rw [List.find?_eq_none]
      intro x hx
      simp [hall x hx]
    have hmin : lunarToSolar O y m d
        = pyMinBy (fun sd => ((sd.year : Int) - (y : Int)).natAbs)
            (lunarCandidates O y m d) := by
      unfold lunarToSolar
      rw [hfn]
    cases hc : lunarCandidates O y m d with
    | nil => exact absurd hc hne
    | cons a as =>
      rcases pyMinBy_spec (fun sd => ((sd.year : Int) - (y : Int)).natAbs) a as with
        ⟨z, hz, hzm, hzb⟩
      rw [hc] at hmin
      rw [hz] at hmin
      exact ⟨z, hmin, hzm, hzb⟩
  · intro h1 h2
    have hc : lunarCandidates O y m d = [] := by
      unfold lunarCandidates
      simp [List.filterMap_cons, h1, h2]
    unfold lunarToSolar
    rw [hc]
    rfl
  · intro nm ty off hmem hnone h hh hnm
    rcases getLunarHolidays_cases O y h hh with
      ⟨lm, ld, nm', ty', off', sd, lab, he, hls, _, hrec⟩ | ⟨sf, lm, ld, lab, hls, _, _, hrec⟩
    · have hname : nm' = nm := by rw [hrec] at hnm; exact hnm
      subst hname
      simp only [lunarHolidaysDef, List.mem_cons, List.not_mem_nil, or_false,
        Prod.mk.injEq] at he hmem
      rcases hmem with h1 | h1 | h1 | h1 | h1 | h1 | h1 | h1 | h1 <;>
        rcases he with h2 | h2 | h2 | h2 | h2 | h2 | h2 | h2 | h2 <;>
          simp_all
    · have hxname : h.name = "除夕" := by rw [hrec]
      rw [hxname] at hnm
      simp only [lunarHolidaysDef, List.mem_cons, List.not_mem_nil, or_false,
        Prod.mk.injEq] at hmem
      rcases hmem with h1 | h1 | h1 | h1 | h1 | h1 | h1 | h1 | h1 <;> simp_all

/-- C4 witness: for the 2025 oracle and the Double-Ninth definition
(lunar 9/9), the resolver picks the candidate landing in 2025. -/
theorem lunarToSolar_disambiguation_witness :
    ∃ sd, lunarToSolar oracles2025 2025 9 9 = some sd ∧ sd.year = 2025 ∧
      sd ∈ lunarCandidates oracles2025 2025 9 9 := by
  exact (lunarToSolar_disambiguation oracles2025 2025 9 9).2.1
    ⟨2025, 10, 29⟩ (by decide) rfl

/-! ## C5: Lunar New Year's Eve is one day before Lunar New Year's Day -/

/-- C5: whenever Lunar New Year's Day (lunar 1/1) resolves for the query
year and the reverse oracle labels its predecessor, the produced 除夕 is
dated exactly one calendar day before the resolved 春節 (their ordinals
differ by one), and its lunar label is the one derived through the
reverse conversion of that eve date. -/
theorem newYearsEve_one_day_before (O : Oracles) (year : Nat) (sf : PDate) (lm ld : Nat)
    (hsf : lunarToSolar O year 1 1 = some sf)
    (hwin : (sf.month = 1 ∧ 21 ≤ sf.day ∧ sf.day ≤ 31)
      ∨ (sf.month = 2 ∧ 1 ≤ sf.day ∧ sf.day ≤ 20))
    (hfs : O.fromSolar (predD sf) = some (lm, ld))
    (hlm : 1 ≤ lm ∧ lm ≤ 12) (hld : 1 ≤ ld ∧ ld ≤ 30) :
    ∃ lab, lunarLabelOf lm ld = some lab ∧
      ({ name := "除夕", date := formatDate (predD sf), type := .traditional,
         is_off_day := true, lunar_date := some lab } : Holiday)
        ∈ getLunarHolidays O year ∧
      toOrdinal (predD sf) + 1 = toOrdinal sf ∧
      ({ name := "春節", date := formatDate sf, type := .traditional,
         is_off_day := true, lunar_date := some "正月初一" } : Holiday)
        ∈ getLunarHolidays O year := by
  have hlm13 : lm < LUNAR_MONTH_NAMES.length := by simp [LUNAR_MONTH_NAMES]; omega
  have hld31 : ld < LUNAR_DAY_NAMES.length := by simp [LUNAR_DAY_NAMES]; omega
  have hlab : lunarLabelOf lm ld = some (LUNAR_MONTH_NAMES[lm] ++ LUNAR_DAY_NAMES[ld]) := by
    unfold lunarLabelOf
    rw [List.getElem?_eq_getElem hlm13, List.getElem?_eq_getElem hld31]
  refine ⟨_, hlab, ?_, ?_, ?_⟩
  · unfold getLunarHolidays
    refine List.mem_append.mpr (Or.inr ?_)
    simp only [hsf, hfs, hlab]
    exact List.mem_singleton.mpr rfl
  · rcases hwin with ⟨hm1, hd1, hd2⟩ | ⟨hm1, hd1, hd2⟩
    · have hpred : predD sf = ⟨sf.year, sf.month, sf.day - 1⟩ := by
        unfold predD; rw [if_pos (by omega)]
      rw [hpred]
      show daysBeforeYear sf.year + daysBeforeMonth sf.year sf.month + (sf.day - 1) + 1
        = daysBeforeYear sf.year + daysBeforeMonth sf.year sf.month + sf.day
      omega
    · by_cases hone : sf.day = 1
      · have hpred : predD sf
            = ⟨sf.year, sf.month - 1, daysInMonth sf.year (sf.month - 1)⟩ := by
          unfold predD; rw [if_neg (by omega), if_pos (by omega)]
        rw [hpred]
        show daysBeforeYear sf.year + daysBeforeMonth sf.year (sf.month - 1)
              + daysInMonth sf.year (sf.month - 1) + 1
          = daysBeforeYear sf.year + daysBeforeMonth sf.year sf.month + sf.day
        rw [hm1, hone]
        simp [daysBeforeMonth, daysInMonth]
      · have hpred : predD sf = ⟨sf.year, sf.month, sf.day - 1⟩ := by
          unfold predD; rw [if_pos (by omega)]
        rw [hpred]
        show daysBeforeYear sf.year + daysBeforeMonth sf.year sf.month + (sf.day - 1) + 1
          = daysBeforeYear sf.year + daysBeforeMonth sf.year sf.month + sf.day
        omega
  · unfold getLunarHolidays
    refine List.mem_append.mpr (Or.inl ?_)
    refine List.mem_filterMap.mpr ⟨(1, 1, "春節", .traditional, true), ?_, ?_⟩
    · simp [lunarHolidaysDef]
    · simp only [hsf]
      rfl

/-- C5 witness: for the 2025 oracle, Lunar New Year's Day is 2025-01-29,
the eve is 2025-01-28 (lunar 12/29, 臘月廿九). -/
theorem newYearsEve_one_day_before_witness :
    ∃ lab, lunarLabelOf 12 29 = some lab ∧
      ({ name := "除夕", date := formatDate (predD ⟨2025, 1, 29⟩), type := .traditional,
         is_off_day := true, lunar_date := some lab } : Holiday)
        ∈ getLunarHolidays oracles2025 2025 ∧
      toOrdinal (predD ⟨2025, 1, 29⟩) + 1 = toOrdinal ⟨2025, 1, 29⟩ ∧
      ({ name := "春節", date := formatDate (⟨2025, 1, 29⟩ : PDate), type := .traditional,
         is_off_day := true, lunar_date := some "正月初一" } : Holiday)
        ∈ getLunarHolidays oracles2025 2025 := by
  exact newYearsEve_one_day_before oracles2025 2025 ⟨2025, 1, 29⟩ 12 29
    (by decide) (by decide) (by decide) (by decide) (by decide)

/-! ## C6, C7: the bisection of `_calculate_solar_term` -/

/-- With a total longitude oracle the bisection loop always produces an
instant (it cannot report not-found). -/
theorem stRun_isSome (lon : ℚ → Option ℚ) (tR : ℚ) (htot : ∀ q, (lon q).isSome) :
    ∀ fuel low high, (stRun lon tR fuel low high).isSome := by
  intro fuel
  induction fuel with
  | zero => intro low high; rfl
  | succ f ih =>
    intro low high
    unfold stRun
    cases hl : lon ((low + high) / 2) with
    | none => exact absurd (htot ((low + high) / 2)) (by rw [hl]; simp)
    | some cl =>
      dsimp only
      by_cases hconv : |normDiff (cl - tR)| < 1 / 10000
      · rw [if_pos hconv]; rfl
      · rw [if_neg hconv]
        by_cases hpos : 0 < normDiff (cl - tR)
        · rw [if_pos hpos]; exact ih _ _
        · rw [if_neg hpos]; exact ih _ _

/-- One non-converged step of the bisection narrows the bracket: a
positive normalized difference makes the midpoint the new upper bound, a
non-positive one the new lower bound. -/
theorem stRun_step (lon : ℚ → Option ℚ) (tR : ℚ) (fuel : Nat) (low high cl : ℚ)
    (hl : lon ((low + high) / 2) = some cl)
    (hnc : ¬ |normDiff (cl - tR)| < 1 / 10000) :
    stRun lon tR (fuel + 1) low high
      = if 0 < normDiff (cl - tR) then stRun lon tR fuel low ((low + high) / 2)
        else stRun lon tR fuel ((low + high) / 2) high := by
  simp only [stRun]
  rw [hl]
  dsimp only
  rw [if_neg hnc]

/-- Bracket evolution of a non-converged step. -/
theorem stTrace_step (lon : ℚ → Option ℚ) (tR : ℚ) (fuel : Nat) (low high cl : ℚ)
    (hl : lon ((low + high) / 2) = some cl)
    (hnc : ¬ |normDiff (cl - tR)| < 1 / 10000) :
    stTrace lon tR (fuel + 1) low high
      = if 0 < normDiff (cl - tR) then stTrace lon tR fuel low ((low + high) / 2)
        else stTrace lon tR fuel ((low + high) / 2) high := by
  simp only [stTrace]
  rw [hl]
  dsimp only
  rw [if_neg hnc]

/-- Convergence-flag evolution of a non-converged step. -/
theorem stConvergedB_step (lon : ℚ → Option ℚ) (tR : ℚ) (fuel : Nat) (low high cl : ℚ)
    (hl : lon ((low + high) / 2) = some cl)
    (hnc : ¬ |normDiff (cl - tR)| < 1 / 10000) :
    stConvergedB lon tR (fuel + 1) low high
      = if 0 < normDiff (cl - tR) then stConvergedB lon tR fuel low ((low + high) / 2)
        else stConvergedB lon tR fuel ((low + high) / 2) high := by
  simp only [stConvergedB]
  rw [hl]
  dsimp only
  rw [if_neg hnc]

/-- When no iteration converges, the loop's result is the midpoint of the
final bracket. -/
theorem stRun_exhaust (lon : ℚ → Option ℚ) (tR : ℚ) (htot : ∀ q, (lon q).isSome) :
    ∀ fuel low high, stConvergedB lon tR fuel low high = false →
      stRun lon tR fuel low high
        = some (((stTrace lon tR fuel low high).1 + (stTrace lon tR fuel low high).2) / 2) := by
  intro fuel
  induction fuel with
  | zero => intro low high _; rfl
  | succ f ih =>
    intro low high hc
    cases hl : lon ((low + high) / 2) with
    | none => exact absurd (htot ((low + high) / 2)) (by rw [hl]; simp)
    | some cl =>
      by_cases hconv : |normDiff (cl - tR)| < 1 / 10000
      · exfalso
        unfold stConvergedB at hc
        rw [hl] at hc
        dsimp only at hc
        rw [if_pos hconv] at hc
        simp at hc
      · have h1 := stRun_step lon tR f low high cl hl hconv
        have h2 := stTrace_step lon tR f low high cl hl hconv
        have h3 := stConvergedB_step lon tR f low high cl hl hconv
        rw [h3] at hc
        by_cases hpos : 0 < normDiff (cl - tR)
        · rw [if_pos hpos] at h1 h2 hc
          rw [h1, h2]
          exact ih _ _ hc
        · rw [if_neg hpos] at h1 h2 hc
          rw [h1, h2]
          exact ih _ _ hc

/-- The loop's result always lies inside the initial bracket. -/
theorem stRun_mem_bracket (lon : ℚ → Option ℚ) (tR : ℚ) :
    ∀ fuel low high q, low ≤ high → stRun lon tR fuel low high = some q →
      low ≤ q ∧ q ≤ high := by
  intro fuel
  induction fuel with
  | zero =>
    intro low high q hlh heq
    have hq : q = (low + high) / 2 := by
      have := heq
      unfold stRun at this
      exact (Option.some.injEq _ _ ▸ this.symm).symm ▸ rfl
    subst hq
    constructor <;> linarith
  | succ f ih =>
    intro low high q hlh heq
    unfold stRun at heq
    cases hl : lon ((low + high) / 2) with
    | none => rw [hl] at heq; exact absurd heq (by simp)
    | some cl =>
      rw [hl] at heq
      dsimp only at heq
      have hmid1 : low ≤ (low + high) / 2 := by linarith
      have hmid2 : (low + high) / 2 ≤ high := by linarith
      by_cases hconv : |normDiff (cl - tR)| < 1 / 10000
      · rw [if_pos hconv] at heq
        have hq : q = (low + high) / 2 := by
          injection heq with h
          exact h.symm
        subst hq
        exact ⟨hmid1, hmid2⟩
      · rw [if_neg hconv] at heq
        by_cases hpos : 0 < normDiff (cl - tR)
        · rw [if_pos hpos] at heq
          have := ih low ((low + high) / 2) q hmid1 heq
          exact ⟨this.1, le_trans this.2 hmid2⟩
        · rw [if_neg hpos] at heq
          have := ih ((low + high) / 2) high q hmid2 heq
          exact ⟨le_trans hmid1 this.1, this.2⟩

/-- Lower bound on the day-of-year offset of the four season anchor
months used by `_calculate_solar_term`. -/
theorem daysBeforeMonth_season (yy mo : Nat) (hmo : mo = 3 ∨ mo = 6 ∨ mo = 9 ∨ mo = 12) :
    59 ≤ daysBeforeMonth yy mo := by
  rcases hmo with h | h | h | h <;> subst h <;>
    simp [daysBeforeMonth, daysInMonth] <;> split_ifs <;> omega

/-- C6: non-convergence is never a failure: with a total longitude
oracle, if no iteration of the 50-round bisection meets the precision
threshold, the loop still returns — the final bracket's midpoint — and
`_calculate_solar_term` produces a date for every positive year and any
target longitude. -/
theorem bisection_nonconvergence_best_effort (lon : ℚ → Option ℚ) (tR : ℚ)
    (htot : ∀ q, (lon q).isSome) :
    (∀ low high, stConvergedB lon tR 50 low high = false →
       stRun lon tR 50 low high
         = some (((stTrace lon tR 50 low high).1 + (stTrace lon tR 50 low high).2) / 2))
    ∧ ∀ (year : Nat) (tl : ℚ), 1 ≤ year → (calculateSolarTerm lon year tl).isSome := by
  constructor
  · intro low high hc
    exact stRun_exhaust lon tR htot 50 low high hc
  · intro year tl hy
    unfold calculateSolarTerm
    rw [if_neg (by omega)]
    dsimp only
    set sdate : PDate :=
      (if tl < 90 then ⟨year, 3, 1⟩
       else if tl < 180 then ⟨year, 6, 1⟩
       else if tl < 270 then ⟨year, 9, 1⟩
       else ⟨year, 12, 1⟩ : PDate) with hsdate
    have hord : 60 ≤ toOrdinal sdate := by
      rw [hsdate]
      have hgen : ∀ mo, mo = 3 ∨ mo = 6 ∨ mo = 9 ∨ mo = 12 →
          60 ≤ toOrdinal ⟨year, mo, 1⟩ := by
        intro mo hmo
        have hb := daysBeforeMonth_season year mo hmo
        show 60 ≤ daysBeforeYear year + daysBeforeMonth year mo + 1
        omega
      split_ifs <;> exact hgen _ (by simp)
    have hlh : ephemOfOrd ((toOrdinal sdate : Int) - 45)
        ≤ ephemOfOrd ((toOrdinal sdate : Int) + 45) := by
      unfold ephemOfOrd
      push_cast
      linarith
    obtain ⟨q, hq⟩ := Option.isSome_iff_exists.mp
      (stRun_isSome lon (radiansQ tl) htot 50
        (ephemOfOrd ((toOrdinal sdate : Int) - 45))
        (ephemOfOrd ((toOrdinal sdate : Int) + 45)))
    rw [hq]
    have hbr := stRun_mem_bracket lon (radiansQ tl) 50 _ _ q hlh hq
    have hql : ephemOfOrd ((toOrdinal sdate : Int) - 45) ≤ q := hbr.1
    have hofl : ((toOrdinal sdate : Int) - 45 : Int) ≤ ephemToOrd q := by
      unfold ephemToOrd
      show _ ≤ ⌊q + 693595 + 1 / 2⌋
      apply Int.le_floor.mpr
      unfold ephemOfOrd at hql
      push_cast at hql ⊢
      linarith
    have h1le : (1 : Int) ≤ ephemToOrd q := by
      have : (60 : Int) ≤ (toOrdinal sdate : Int) := by exact_mod_cast hord
      omega
    show (Option.bind (some q) ephemDate).isSome
    unfold ephemDate
    dsimp only [Option.bind]
    rw [if_neg (by omega)]
    rfl

/-- If the oracle's normalized difference never meets the threshold at
any instant, no iteration converges. -/
theorem stConvergedB_of_never (lon : ℚ → Option ℚ) (tR : ℚ)
    (h : ∀ q cl, lon q = some cl → ¬ |normDiff (cl - tR)| < 1 / 10000) :
    ∀ fuel low high, stConvergedB lon tR fuel low high = false := by
  intro fuel
  induction fuel with
  | zero => intro low high; rfl
  | succ f ih =>
    intro low high
    unfold stConvergedB
    cases hl : lon ((low + high) / 2) with
    | none => rfl
    | some cl =>
      dsimp only
      rw [if_neg (h _ _ hl)]
      by_cases hpos : 0 < normDiff (cl - tR)
      · rw [if_pos hpos]; exact ih _ _
      · rw [if_neg hpos]; exact ih _ _

/-- C6 witness: with the constant oracle (longitude 0, target 1 rad) the
50-round loop never converges, returns the final midpoint, and the
solar-term computation still produces a date for year 2025. -/
theorem bisection_nonconvergence_best_effort_witness :
    stRun lonConst 1 50 0 1
        = some (((stTrace lonConst 1 50 0 1).1 + (stTrace lonConst 1 50 0 1).2) / 2)
      ∧ (calculateSolarTerm lonConst 2025 15).isSome := by
  have h := bisection_nonconvergence_best_effort lonConst 1 (fun q => rfl)
  refine ⟨h.1 0 1 ?_, h.2 2025 15 (by norm_num)⟩
  apply stConvergedB_of_never
  intro q cl hcl
  have hcl' : cl = 0 := by
    have h0 : lonConst q = some (0 : ℚ) := rfl
    rw [h0] at hcl
    simpa using hcl.symm
  subst hcl'
  norm_num [normDiff, piF]

/-- Each non-converging iteration halves the bracket width. -/
theorem stTrace_width (lon : ℚ → Option ℚ) (tR : ℚ) (htot : ∀ q, (lon q).isSome) :
    ∀ fuel low high, stConvergedB lon tR fuel low high = false →
      (stTrace lon tR fuel low high).2 - (stTrace lon tR fuel low high).1
        = (high - low) / 2 ^ fuel := by
  intro fuel
  induction fuel with
  | zero => intro low high _; simp [stTrace]
  | succ f ih =>
    intro low high hc
    cases hl : lon ((low + high) / 2) with
    | none => exact absurd (htot ((low + high) / 2)) (by rw [hl]; simp)
    | some cl =>
      by_cases hconv : |normDiff (cl - tR)| < 1 / 10000
      · exfalso
        unfold stConvergedB at hc
        rw [hl] at hc
        dsimp only at hc
        rw [if_pos hconv] at hc
        simp at hc
      · have h2 := stTrace_step lon tR f low high cl hl hconv
        have h3 := stConvergedB_step lon tR f low high cl hl hconv
        rw [h3] at hc
        by_cases hpos : 0 < normDiff (cl - tR)
        · rw [if_pos hpos] at h2 hc
          rw [h2, ih _ _ hc]
          have hm : (low + high) / 2 - low = (high - low) / 2 := by ring
          rw [hm, div_div]
          congr 1
          rw [pow_succ]
          ring
        · rw [if_neg hpos] at h2 hc
          rw [h2, ih _ _ hc]
          have hm : high - (low + high) / 2 = (high - low) / 2 := by ring
          rw [hm, div_div]
          congr 1
          rw [pow_succ]
          ring

/-- C7: (i) the signed longitude difference is normalized by a full turn
whenever it exceeds π radians (180°) or falls below −π, landing within
[−π, π] and preserving the value modulo 2π; (ii) a positive normalized
difference makes the midpoint the new upper bound and a non-positive one
the new lower bound; (iii) every non-converging iteration halves the
bracket; (iv) the seed bracket is the target longitude's season anchor
date ± 45 days. -/
theorem bisection_normalization_and_bracket :
    (∀ d : ℚ, |d| < 2 * piF →
       |normDiff d| ≤ piF
       ∧ (normDiff d = d ∨ normDiff d = d - 2 * piF ∨ normDiff d = d + 2 * piF)
       ∧ (piF < d → normDiff d = d - 2 * piF)
       ∧ (d < -piF → normDiff d = d + 2 * piF))
    ∧ (∀ (lon : ℚ → Option ℚ) (tR : ℚ) (fuel : Nat) (low high cl : ℚ),
        lon ((low + high) / 2) = some cl → ¬ |normDiff (cl - tR)| < 1 / 10000 →
        stRun lon tR (fuel + 1) low high
          = if 0 < normDiff (cl - tR) then stRun lon tR fuel low ((low + high) / 2)
            else stRun lon tR fuel ((low + high) / 2) high)
    ∧ (∀ (lon : ℚ → Option ℚ) (tR : ℚ) (fuel : Nat) (low high : ℚ),
        (∀ q, (lon q).isSome) → stConvergedB lon tR fuel low high = false →
        (stTrace lon tR fuel low high).2 - (stTrace lon tR fuel low high).1
          = (high - low) / 2 ^ fuel)
    ∧ (∀ (lon : ℚ → Option ℚ) (year : Nat) (tl : ℚ), 1 ≤ year →
        calculateSolarTerm lon year tl
          = (stRun lon (radiansQ tl) 50
              (ephemOfOrd ((toOrdinal (specSeasonAnchor year tl) : Int) - 45))
              (ephemOfOrd ((toOrdinal (specSeasonAnchor year tl) : Int) + 45))).bind
              ephemDate) := by
  have hpi : (3 : ℚ) < piF := by norm_num [piF]
  refine ⟨?_, ?_, ?_, ?_⟩
  · intro d habs
    have hlt := abs_lt.mp habs
    unfold normDiff
    split_ifs with h1 h2
    · refine ⟨abs_le.mpr ⟨by linarith, by linarith⟩, Or.inr (Or.inl rfl),
        fun _ => rfl, fun hd => ?_⟩
      exfalso; linarith
    · refine ⟨abs_le.mpr ⟨by linarith, by linarith⟩, Or.inr (Or.inr rfl),
        fun hd => ?_, fun _ => rfl⟩
      exfalso; linarith
    · refine ⟨abs_le.mpr ⟨by linarith, by linarith⟩, Or.inl rfl,
        fun hd => absurd hd h1, fun hd => absurd hd h2⟩
  · intro lon tR fuel low high cl hl hnc
    exact stRun_step lon tR fuel low high cl hl hnc
  · intro lon tR fuel low high htot hc
    exact stTrace_width lon tR htot fuel low high hc
  · intro lon year tl hy
    unfold calculateSolarTerm specSeasonAnchor
    rw [if_neg (by omega)]

/-- C7 witness: concrete instances of normalization (at difference 0),
one bracket-narrowing step, bracket width, and the 2025 seed bracket for
Qingming (15°). -/
theorem bisection_normalization_and_bracket_witness :
    (|normDiff 0| ≤ piF
       ∧ (normDiff 0 = 0 ∨ normDiff 0 = 0 - 2 * piF ∨ normDiff 0 = 0 + 2 * piF)
       ∧ (piF < 0 → normDiff 0 = 0 - 2 * piF)
       ∧ (0 < -piF → normDiff 0 = 0 + 2 * piF))
    ∧ stRun lonConst 1 1 0 1
        = (if 0 < normDiff (0 - 1) then stRun lonConst 1 0 0 ((0 + 1) / 2)
           else stRun lonConst 1 0 ((0 + 1) / 2) 1)
    ∧ (stTrace lonConst 1 0 0 1).2 - (stTrace lonConst 1 0 0 1).1 = (1 - 0) / 2 ^ 0
    ∧ calculateSolarTerm lonConst 2025 15
        = (stRun lonConst (radiansQ 15) 50
            (ephemOfOrd ((toOrdinal (specSeasonAnchor 2025 15) : Int) - 45))
            (ephemOfOrd ((toOrdinal (specSeasonAnchor 2025 15) : Int) + 45))).bind
            ephemDate := by
  have h := bisection_normalization_and_bracket
  have habs0 : |(0 : ℚ)| < 2 * piF := by
    rw [abs_zero]
    norm_num [piF]
  have hstep : lonConst ((0 + 1 : ℚ) / 2) = some 0 := rfl
  have hnc : ¬ |normDiff ((0 : ℚ) - 1)| < 1 / 10000 := by
    norm_num [normDiff, piF]
  exact ⟨h.1 0 habs0, h.2.1 lonConst 1 0 0 1 0 hstep hnc,
    h.2.2.1 lonConst 1 0 0 1 (fun q => rfl) rfl,
    h.2.2.2 lonConst 2025 15 (by norm_num)⟩

/-! ## C8: `_get_nth_weekday_of_month` -/

/-- Month length bounds. -/
theorem daysInMonth_bounds (y m : Nat) : 28 ≤ daysInMonth y m ∧ daysInMonth y m ≤ 31 := by
  unfold daysInMonth
  split_ifs <;> omega

theorem addDays_add (x : PDate) (a b : Nat) :
    addDays x (a + b) = addDays (addDays x a) b := by
  induction a generalizing x with
  | zero => rw [Nat.zero_add]; rfl
  | succ a ih =>
    have hswap : a + 1 + b = (a + b) + 1 := by omega
    rw [hswap]
    show addDays (succD x) (a + b) = addDays (addDays (succD x) a) b
    exact ih (succD x)

theorem addDays_succ_right (x : PDate) (k : Nat) :
    addDays x (k + 1) = succD (addDays x k) := by
  induction k generalizing x with
  | zero => rfl
  | succ k ih =>
    show addDays (succD x) (k + 1) = succD (addDays (succD x) k)
    exact ih (succD x)

/-- Adding days within the current month just advances the day field. -/
theorem addDays_same_month (y m : Nat) :
    ∀ k d, 1 ≤ d → d + k ≤ daysInMonth y m → addDays ⟨y, m, d⟩ k = ⟨y, m, d + k⟩ := by
  intro k
  induction k with
  | zero => intro d _ _; rfl
  | succ k ih =>
    intro d hd hdk
    have hlt : d < daysInMonth y m := by omega
    have hsucc : succD ⟨y, m, d⟩ = ⟨y, m, d + 1⟩ := by
      unfold succD
      rw [if_pos hlt]
    show addDays (succD ⟨y, m, d⟩) k = _
    rw [hsucc, ih (d + 1) (by omega) (by omega)]
    congr 1
    omega

theorem addDays_month_exit (y m k : Nat) (hm1 : 1 ≤ m) (hm2 : m ≤ 12)
    (hk : daysInMonth y m ≤ k) :
    addDays ⟨y, m, 1⟩ k
      = addDays ⟨(nextMY y m).1, (nextMY y m).2, 1⟩ (k - daysInMonth y m) := by
  have hpos := (daysInMonth_bounds y m).1
  have hfirst : addDays ⟨y, m, 1⟩ (daysInMonth y m)
      = ⟨(nextMY y m).1, (nextMY y m).2, 1⟩ := by
    have hsplit : daysInMonth y m = (daysInMonth y m - 1) + 1 := by omega
    rw [hsplit, addDays_succ_right,
      addDays_same_month y m (daysInMonth y m - 1) 1 (le_refl 1) (by omega)]
    unfold succD nextMY
    rw [if_neg (by simp; omega)]
    by_cases h12 : m < 12
    · rw [if_pos h12, if_pos h12]
    · rw [if_neg h12, if_neg h12]
  calc addDays ⟨y, m, 1⟩ k
      = addDays ⟨y, m, 1⟩ (daysInMonth y m + (k - daysInMonth y m)) := by
        congr 1; omega
    _ = addDays (addDays ⟨y, m, 1⟩ (daysInMonth y m)) (k - daysInMonth y m) :=
        addDays_add _ _ _
    _ = addDays ⟨(nextMY y m).1, (nextMY y m).2, 1⟩ (k - daysInMonth y m) := by
        rw [hfirst]

/-- Within the window covered by `fuel` months, day-offset addition from
the first of a month agrees with the month walk. -/
theorem addDays_eq_monthWalk :
    ∀ fuel y m k, 1 ≤ m → m ≤ 12 → k < windowLen fuel y m →
      addDays ⟨y, m, 1⟩ k = monthWalk fuel y m k := by
  intro fuel
  induction fuel with
  | zero =>
    intro y m k _ _ hk
    exact absurd hk (by simp [windowLen])
  | succ f ih =>
    intro y m k hm1 hm2 hk
    by_cases hlt : k < daysInMonth y m
    · unfold monthWalk
      rw [if_pos hlt, addDays_same_month y m k 1 (le_refl 1) (by omega)]
      congr 1
      omega
    · unfold monthWalk
      rw [if_neg hlt]
      rw [addDays_month_exit y m k hm1 hm2 (by omega)]
      have hnext1 : 1 ≤ (nextMY y m).2 := by
        unfold nextMY
        split_ifs <;> simp <;> omega
      have hnext2 : (nextMY y m).2 ≤ 12 := by
        unfold nextMY
        split_ifs <;> simp <;> omega
      apply ih _ _ _ hnext1 hnext2
      have hwl : windowLen (f + 1) y m
          = daysInMonth y m + windowLen f (nextMY y m).1 (nextMY y m).2 := rfl
      omega

theorem mVal_zero (m : Nat) (hm1 : 1 ≤ m) (hm2 : m ≤ 12) : mVal 0 m = m := by
  unfold mVal
  omega

theorem nextMY_snd (y m : Nat) (hm1 : 1 ≤ m) (hm2 : m ≤ 12) :
    (nextMY y m).2 = mVal 1 m := by
  unfold nextMY mVal
  split_ifs <;> simp <;> omega

theorem mVal_comp (j m : Nat) (hm1 : 1 ≤ m) (hm2 : m ≤ 12) :
    mVal j (mVal 1 m) = mVal (j + 1) m := by
  unfold mVal
  omega

/-- The month reached by the month walk differs from a forbidden value
`t` provided `t` is not the month value of any step the offset can
actually reach. -/
theorem monthWalk_month_ne :
    ∀ fuel y m t k, 1 ≤ m → m ≤ 12 →
      (∀ j, j ≤ fuel → windowLen j y m ≤ k → mVal j m ≠ t) →
      (monthWalk fuel y m k).month ≠ t := by
  intro fuel
  induction fuel with
  | zero =>
    intro y m t k hm1 hm2 hcond
    have h0 := hcond 0 (le_refl 0) (by simp [windowLen])
    rw [mVal_zero m hm1 hm2] at h0
    exact h0
  | succ f ih =>
    intro y m t k hm1 hm2 hcond
    by_cases hlt : k < daysInMonth y m
    · unfold monthWalk
      rw [if_pos hlt]
      have h0 := hcond 0 (by omega) (by simp [windowLen])
      rw [mVal_zero m hm1 hm2] at h0
      exact h0
    · unfold monthWalk
      rw [if_neg hlt]
      have hnext1 : 1 ≤ (nextMY y m).2 := by
        unfold nextMY
        split_ifs <;> simp <;> omega
      have hnext2 : (nextMY y m).2 ≤ 12 := by
        unfold nextMY
        split_ifs <;> simp <;> omega
      apply ih _ _ _ _ hnext1 hnext2
      intro j hj hwl
      have hsnd := nextMY_snd y m hm1 hm2
      rw [hsnd, mVal_comp j m hm1 hm2]
      apply hcond (j + 1) (by omega)
      have : windowLen (j + 1) y m
          = daysInMonth y m + windowLen j (nextMY y m).1 (nextMY y m).2 := rfl
      omega

/-- Twelve consecutive calendar months always cover at least 365 days. -/
theorem windowLen_twelve (y m : Nat) (hm1 : 1 ≤ m) (hm2 : m ≤ 12) :
    365 ≤ windowLen 12 y m := by
  interval_cases m <;>
    simp [windowLen, nextMY, daysInMonth] <;> split_ifs <;> omega

/-- Closed form of `_get_nth_weekday_of_month` on its documented domain
(`n ≥ 1`, valid month, `n ≤ 51` below the year-wrap hazard): the result
is day `first + 7(n-1)` of the month when that stays within the month,
and `none` otherwise. -/
theorem getNthWeekdayOfMonth_eq (y mo wd n : Nat) (hy : 1 ≤ y) (hm1 : 1 ≤ mo)
    (hm2 : mo ≤ 12) (hn1 : 1 ≤ n) (hn2 : n ≤ 51) :
    getNthWeekdayOfMonth y mo wd n
      = (if (wd + 7 - pyWeekday ⟨y, mo, 1⟩) % 7 + 7 * (n - 1) < daysInMonth y mo
         then some ⟨y, mo, (wd + 7 - pyWeekday ⟨y, mo, 1⟩) % 7 + 7 * (n - 1) + 1⟩
         else none) := by
  unfold getNthWeekdayOfMonth
  rw [if_neg (by omega)]
  dsimp only
  rw [← addDays_add]
  have hdu6 : (wd + 7 - pyWeekday ⟨y, mo, 1⟩) % 7 ≤ 6 := by omega
  set k := (wd + 7 - pyWeekday ⟨y, mo, 1⟩) % 7 + 7 * (n - 1) with hk
  have hk356 : k ≤ 356 := by omega
  have hb := daysInMonth_bounds y mo
  by_cases hlt : k < daysInMonth y mo
  · rw [addDays_same_month y mo k 1 (le_refl 1) (by omega)]
    rw [if_pos rfl, if_pos hlt]
    congr 2
    omega
  · rw [if_neg hlt]
    have hnext1 : 1 ≤ (nextMY y mo).2 := by
      unfold nextMY
      split_ifs <;> simp <;> omega
    have hnext2 : (nextMY y mo).2 ≤ 12 := by
      unfold nextMY
      split_ifs <;> simp <;> omega
    have hw12 : 365 ≤ windowLen 12 y mo := windowLen_twelve y mo hm1 hm2
    have hw12eq : windowLen 12 y mo
        = daysInMonth y mo + windowLen 11 (nextMY y mo).1 (nextMY y mo).2 := rfl
    have hw13eq : windowLen 13 y mo
        = daysInMonth y mo + windowLen 12 (nextMY y mo).1 (nextMY y mo).2 := rfl
    have hw12n : 365 ≤ windowLen 12 (nextMY y mo).1 (nextMY y mo).2 :=
      windowLen_twelve _ _ hnext1 hnext2
    have hkw : k < windowLen 13 y mo := by omega
    rw [addDays_eq_monthWalk 13 y mo k hm1 hm2 hkw]
    have hne : (monthWalk 13 y mo k).month ≠ mo := by
      unfold monthWalk
      rw [if_neg hlt]
      apply monthWalk_month_ne 12 _ _ mo _ hnext1 hnext2
      intro j hj hwl
      rw [nextMY_snd y mo hm1 hm2, mVal_comp j mo hm1 hm2]
      by_cases hj11 : j = 11
      · exfalso
        subst hj11
        omega
      · unfold mVal
        omega
    rw [if_neg hne]

/-- Filtering a run of consecutive integers for a fixed residue mod 7,
starting at a matching value, yields the arithmetic progression with
step 7. -/
theorem filter_mod_progression :
    ∀ len c, (List.range' c len).filter (fun d => d % 7 == c % 7)
      = (List.range ((len + 6) / 7)).map (fun i => c + 7 * i) := by
  intro len
  induction len using Nat.strong_induction_on with
  | _ len ih =>
    intro c
    match len with
    | 0 => simp
    | n + 1 =>
      rw [List.range'_succ, List.filter_cons_of_pos (by simp)]
      by_cases hn : n ≤ 6
      · have hnil : (List.range' (c + 1) n).filter (fun d => d % 7 == c % 7) = [] := by
          rw [List.filter_eq_nil_iff]
          intro a ha
          have hmem := List.mem_range'_1.mp ha
          simp only [beq_iff_eq]
          omega
        rw [hnil]
        have hcnt : (n + 1 + 6) / 7 = 1 := by omega
        rw [hcnt, show List.range 1 = [0] from by decide]
        simp
      · have hsplit : List.range' (c + 1) n
            = List.range' (c + 1) 6 ++ List.range' (c + 7) (n - 6) := by
          have h := List.range'_append (c + 1) 6 (n - 6) 1
          simp only [one_mul] at h
          rw [show c + 1 + 6 = c + 7 from by omega] at h
          rw [show n = n - 6 + 6 from by omega]
          exact h.symm
        rw [hsplit, List.filter_append]
        have hnil : (List.range' (c + 1) 6).filter (fun d => d % 7 == c % 7) = [] := by
          rw [List.filter_eq_nil_iff]
          intro a ha
          have hmem := List.mem_range'_1.mp ha
          simp only [beq_iff_eq]
          omega
        rw [hnil]
        have hrec := ih (n - 6) (by omega) (c + 7)
        simp only [Nat.add_mod_right] at hrec
        rw [hrec]
        have hcnt : (n + 1 + 6) / 7 = (n - 6 + 6) / 7 + 1 := by omega
        rw [hcnt, List.range_succ_eq_map, List.map_cons, List.map_map]
        rw [List.nil_append]
        congr 1
        apply List.map_congr_left
        intro a _
        simp only [Function.comp_apply]
        omega

/-- The occurrence list is the arithmetic progression starting at the
first matching day with step 7. -/
theorem specOccurrences_eq (y mo wd : Nat) (hwd : wd ≤ 6) :
    specOccurrences y mo wd
      = (List.range ((daysInMonth y mo - ((wd + 7 - pyWeekday ⟨y, mo, 1⟩) % 7 + 1) + 7) / 7)).map
          (fun i => ((wd + 7 - pyWeekday ⟨y, mo, 1⟩) % 7 + 1) + 7 * i) := by
  have hpred : ∀ d ∈ List.range' 1 (daysInMonth y mo),
      (pyWeekday ⟨y, mo, d⟩ == wd)
        = (d % 7 == ((wd + 7 - pyWeekday ⟨y, mo, 1⟩) % 7 + 1) % 7) := by
    intro d _
    have hpw : pyWeekday ⟨y, mo, d⟩
        = (daysBeforeYear y + daysBeforeMonth y mo + d + 6) % 7 := rfl
    have hpw1 : pyWeekday ⟨y, mo, 1⟩
        = (daysBeforeYear y + daysBeforeMonth y mo + 1 + 6) % 7 := rfl
    rw [hpw, hpw1]
    rw [Bool.eq_iff_iff]
    simp only [beq_iff_eq]
    omega
  unfold specOccurrences
  rw [List.filter_congr hpred]
  set fD := (wd + 7 - pyWeekday ⟨y, mo, 1⟩) % 7 + 1 with hfD
  have hf1 : 1 ≤ fD := by omega
  have hf7 : fD ≤ 7 := by omega
  have hdim := daysInMonth_bounds y mo
  have hsplit : List.range' 1 (daysInMonth y mo)
      = List.range' 1 (fD - 1) ++ List.range' fD (daysInMonth y mo - (fD - 1)) := by
    have h := List.range'_append 1 (fD - 1) (daysInMonth y mo - (fD - 1)) 1
    simp only [one_mul] at h
    rw [show 1 + (fD - 1) = fD from by omega] at h
    rw [show daysInMonth y mo - (fD - 1) + (fD - 1) = daysInMonth y mo from by omega] at h
    exact h.symm
  rw [hsplit, List.filter_append]
  have hnil : (List.range' 1 (fD - 1)).filter (fun d => d % 7 == fD % 7) = [] := by
    rw [List.filter_eq_nil_iff]
    intro a ha
    have hmem := List.mem_range'_1.mp ha
    simp only [beq_iff_eq]
    omega
  rw [hnil, List.nil_append, filter_mod_progression]
  have hc : (daysInMonth y mo - (fD - 1) + 6) / 7 = (daysInMonth y mo - fD + 7) / 7 := by
    omega
  rw [hc]

/-- C8 (amended): on the documented domain (`1 ≤ n`, valid month,
weekday 0–6) and below the year-wrap hazard (`n ≤ 51`),
`_get_nth_weekday_of_month` returns the `n`-th occurrence of the weekday
in the month exactly when the month contains `n` occurrences and `none`
otherwise; `n ≤ 4` always succeeds; and Mother's Day 2025 (2nd Sunday of
May) is 2025-05-11. -/
theorem nthWeekday_contract (y mo wd n : Nat) (hy : 1 ≤ y) (hm1 : 1 ≤ mo) (hm2 : mo ≤ 12)
    (hwd : wd ≤ 6) (hn1 : 1 ≤ n) (hn2 : n ≤ 51) :
    getNthWeekdayOfMonth y mo wd n
        = ((specOccurrences y mo wd).get? (n - 1)).map (fun d => (⟨y, mo, d⟩ : PDate))
    ∧ (n ≤ 4 → (getNthWeekdayOfMonth y mo wd n).isSome)
    ∧ getNthWeekdayOfMonth 2025 5 6 2 = some ⟨2025, 5, 11⟩ := by
  have himpl := getNthWeekdayOfMonth_eq y mo wd n hy hm1 hm2 hn1 hn2
  have hocc := specOccurrences_eq y mo wd hwd
  refine ⟨?_, ?_, by decide⟩
  · rw [himpl, hocc]
    set du := (wd + 7 - pyWeekday ⟨y, mo, 1⟩) % 7 with hdu
    have hdu6 : du ≤ 6 := by omega
    have hdim := daysInMonth_bounds y mo
    by_cases hlt : du + 7 * (n - 1) < daysInMonth y mo
    · rw [if_pos hlt]
      have hcnt : n - 1 < (daysInMonth y mo - (du + 1) + 7) / 7 := by omega
      rw [List.get?_map, List.get?_range hcnt]
      refine congrArg some ?_
      show (⟨y, mo, du + 7 * (n - 1) + 1⟩ : PDate) = ⟨y, mo, du + 1 + 7 * (n - 1)⟩
      congr 1
      omega
    · rw [if_neg hlt]
      have hlen : ((List.range ((daysInMonth y mo - (du + 1) + 7) / 7)).map
          (fun i => du + 1 + 7 * i)).get? (n - 1) = none := by
        rw [List.get?_eq_none]
        simp only [List.length_map, List.length_range]
        omega
      rw [hlen]
      rfl
  · intro hn4
    rw [himpl]
    have hdu6 : (wd + 7 - pyWeekday ⟨y, mo, 1⟩) % 7 ≤ 6 := by omega
    have hdim := daysInMonth_bounds y mo
    rw [if_pos (by omega)]
    rfl

set_option maxRecDepth 2000 in
/-- C8 counterexample: for `n = 54` the month-only check wraps into the
next calendar year — May 2025 has only four Sundays, yet the function
returns 2026-05-10 (a date, in the wrong year) instead of none. -/
theorem nthWeekday_wrap_counterexample :
    getNthWeekdayOfMonth 2025 5 6 54 = some ⟨2026, 5, 10⟩
    ∧ (specOccurrences 2025 5 6).length = 4 := by
  constructor
  · unfold getNthWeekdayOfMonth
    rw [if_neg (by decide)]
    dsimp only
    rw [← addDays_add]
    rw [show (6 + 7 - pyWeekday ⟨2025, 5, 1⟩) % 7 + 7 * (54 - 1) = 374 from by decide]
    rw [addDays_eq_monthWalk 13 2025 5 374 (by decide) (by decide) (by decide)]
    decide
  · decide

/-- C8 witness: the amended contract instantiated at Mother's Day 2025. -/
theorem nthWeekday_contract_witness :
    (getNthWeekdayOfMonth 2025 5 6 2
        = ((specOccurrences 2025 5 6).get? (2 - 1)).map (fun d => (⟨2025, 5, d⟩ : PDate)))
    ∧ (2 ≤ 4 → (getNthWeekdayOfMonth 2025 5 6 2).isSome)
    ∧ getNthWeekdayOfMonth 2025 5 6 2 = some ⟨2025, 5, 11⟩ := by
  exact nthWeekday_contract 2025 5 6 2 (by decide) (by decide) (by decide) (by decide)
    (by decide) (by decide)

/-! ## C1: year invariant, non-emptiness and sortedness of a result set -/

/-- The resolver's output is always one of the tried candidates. -/
theorem lunarToSolar_mem_candidates (O : Oracles) (y m d : Nat) (sd : PDate)
    (h : lunarToSolar O y m d = some sd) : sd ∈ lunarCandidates O y m d := by
  unfold lunarToSolar at h
  cases hf : (lunarCandidates O y m d).find? (fun x => x.year == y) with
  | some z =>
    rw [hf] at h
    injection h with h
    exact h ▸ List.mem_of_find?_eq_some hf
  | none =>
    rw [hf] at h
    cases hc : lunarCandidates O y m d with
    | nil => rw [hc] at h; exact absurd h (by simp [pyMinBy])
    | cons a as =>
      rcases pyMinBy_spec (fun x => ((x.year : Int) - (y : Int)).natAbs) a as with
        ⟨z, hz, hzm, _⟩
      rw [hc] at h
      have h' : pyMinBy (fun x => ((x.year : Int) - (y : Int)).natAbs) (a :: as)
          = some sd := h
      rw [h'] at hz
      injection hz with hz
      rw [hz]
      exact hzm

/-- If some tried candidate lands in the target year, the resolver
returns a candidate landing in the target year. -/
theorem lunarToSolar_year_of_candidate (O : Oracles) (y m d : Nat) (x : PDate)
    (hx : x ∈ lunarCandidates O y m d) (hxy : x.year = y) :
    ∃ sd, lunarToSolar O y m d = some sd ∧ sd.year = y ∧
      sd ∈ lunarCandidates O y m d := by
  have hex : ∃ z ∈ lunarCandidates O y m d, (fun sd => sd.year == y) z = true :=
    ⟨x, hx, by simp [hxy]⟩
  rcases Option.isSome_iff_exists.mp (List.find?_isSome.mpr hex) with ⟨z, hz⟩
  refine ⟨z, ?_, ?_, List.mem_of_find?_eq_some hz⟩
  · unfold lunarToSolar
    rw [hz]
  · have := List.find?_some hz
    simpa using this

/-- The predecessor of a date inside the Lunar-New-Year sanity window
(Jan 21 – Feb 20) stays in the same year. -/
theorem predD_year_of_window (sf : PDate)
    (hwin : (sf.month = 1 ∧ 21 ≤ sf.day ∧ sf.day ≤ 31)
      ∨ (sf.month = 2 ∧ 1 ≤ sf.day ∧ sf.day ≤ 20)) :
    (predD sf).year = sf.year := by
  unfold predD
  rcases hwin with ⟨h1, h2, h3⟩ | ⟨h1, h2, h3⟩
  · rw [if_pos (by omega)]
  · by_cases hone : sf.day = 1
    · rw [if_neg (by omega), if_pos (by omega)]
    · rw [if_pos (by omega)]

/-- Dates with equal year format equally after re-homing the year. -/
theorem formatDate_year (x : PDate) (y : Nat) (hx : x.year = y) :
    formatDate x = formatDate ⟨y, x.month, x.day⟩ := by
  rcases x with ⟨a, b, cc⟩
  have ha : a = y := hx
  subst ha
  rfl

/-- Splitting the fixed-table date strings into `formatDate` form. -/
theorem fixedFmt (y m d : Nat) (s : String)
    (hs : s = "-" ++ (pad2 m ++ ("-" ++ pad2 d))) :
    Nat.repr y ++ s = formatDate ⟨y, m, d⟩ := by
  rw [hs]
  rfl

/-- Every fixed holiday's date is a `formatDate` of a date in the query
year. -/
theorem getFixedHolidays_format (y : Nat) :
    ∀ h ∈ getFixedHolidays y, ∃ m d, h.date = formatDate ⟨y, m, d⟩ := by
  intro h hh
  fin_cases hh
  · exact ⟨1, 1, fixedFmt y 1 1 _ (by decide)⟩
  · exact ⟨2, 28, fixedFmt y 2 28 _ (by decide)⟩
  · exact ⟨4, 4, fixedFmt y 4 4 _ (by decide)⟩
  · exact ⟨5, 1, fixedFmt y 5 1 _ (by decide)⟩
  · exact ⟨10, 10, fixedFmt y 10 10 _ (by decide)⟩
  · exact ⟨3, 8, fixedFmt y 3 8 _ (by decide)⟩
  · exact ⟨3, 12, fixedFmt y 3 12 _ (by decide)⟩
  · exact ⟨3, 29, fixedFmt y 3 29 _ (by decide)⟩
  · exact ⟨8, 8, fixedFmt y 8 8 _ (by decide)⟩
  · exact ⟨9, 28, fixedFmt y 9 28 _ (by decide)⟩
  · exact ⟨10, 25, fixedFmt y 10 25 _ (by decide)⟩
  · exact ⟨12, 25, fixedFmt y 12 25 _ (by decide)⟩
  · exact ⟨12, 31, fixedFmt y 12 31 _ (by decide)⟩

/-- Under the oracle hypotheses, every lunar holiday's date is a
`formatDate` of a date in the query year. -/
theorem getLunarHolidays_format (O : Oracles) (year : Nat)
    (hlun : ∀ e ∈ lunarHolidaysDef, ∃ sd, O.toSolar year e.1 e.2.1 = some sd ∧
      sd.year = year)
    (hwin : ∀ ly ∈ [year - 1, year], ∀ sd, O.toSolar ly 1 1 = some sd → sd.year = year →
      (sd.month = 1 ∧ 21 ≤ sd.day ∧ sd.day ≤ 31)
        ∨ (sd.month = 2 ∧ 1 ≤ sd.day ∧ sd.day ≤ 20)) :
    ∀ h ∈ getLunarHolidays O year, ∃ m d, h.date = formatDate ⟨year, m, d⟩ := by
  intro h hh
  rcases getLunarHolidays_cases O year h hh with
    ⟨lm, ld, nm, ty, off, sd, lab, he, hls, hlab, hrec⟩ |
    ⟨sf, lm, ld, lab, hls, hfs, hlab, hrec⟩
  · obtain ⟨sd0, hsd0, hsd0y⟩ := hlun _ he
    have hx : sd0 ∈ lunarCandidates O year lm ld := by
      unfold lunarCandidates
      exact List.mem_filterMap.mpr ⟨year, by simp, hsd0⟩
    obtain ⟨sd', hls', hy', _⟩ := lunarToSolar_year_of_candidate O year lm ld sd0 hx hsd0y
    rw [hls] at hls'
    injection hls' with he2
    have hsdy : sd.year = year := by rw [← he2] at hy'; exact hy'
    refine ⟨sd.month, sd.day, ?_⟩
    rw [hrec]
    exact formatDate_year sd year hsdy
  · obtain ⟨sd0, hsd0, hsd0y⟩ := hlun (1, 1, "春節", .traditional, true) (by simp [lunarHolidaysDef])
    have hx : sd0 ∈ lunarCandidates O year 1 1 := by
      unfold lunarCandidates
      exact List.mem_filterMap.mpr ⟨year, by simp, hsd0⟩
    obtain ⟨sd', hls', hy', _⟩ := lunarToSolar_year_of_candidate O year 1 1 sd0 hx hsd0y
    rw [hls] at hls'
    injection hls' with he2
    have hsfy : sf.year = year := by rw [← he2] at hy'; exact hy'
    have hmem := lunarToSolar_mem_candidates O year 1 1 sf hls
    have hsrc : ∃ ly ∈ [year - 1, year], O.toSolar ly 1 1 = some sf := by
      unfold lunarCandidates at hmem
      exact List.mem_filterMap.mp hmem
    obtain ⟨ly, hlymem, hlysf⟩ := hsrc
    have hwinsf := hwin ly hlymem sf hlysf hsfy
    have hpy : (predD sf).year = year := by
      rw [predD_year_of_window sf hwinsf]
      exact hsfy
    refine ⟨(predD sf).month, (predD sf).day, ?_⟩
    rw [hrec]
    exact formatDate_year (predD sf) year hpy

/-- Under the solar-term year hypotheses, every solar-term holiday's
date is a `formatDate` of a date in the query year. -/
theorem getSolarTermHolidays_format (lon : ℚ → Option ℚ) (year : Nat)
    (hs15 : ∀ pd, calculateSolarTerm lon year 15 = some pd → pd.year = year)
    (hs270 : ∀ pd, calculateSolarTerm lon year 270 = some pd → pd.year = year) :
    ∀ h ∈ getSolarTermHolidays lon year, ∃ m d, h.date = formatDate ⟨year, m, d⟩ := by
  intro h hh
  unfold getSolarTermHolidays at hh
  rcases List.mem_append.mp hh with hh | hh
  · cases h15 : calculateSolarTerm lon year 15 with
    | none => rw [h15] at hh; simp at hh
    | some pd =>
      rw [h15] at hh
      simp at hh
      subst hh
      exact ⟨pd.month, pd.day, formatDate_year pd year (hs15 pd h15)⟩
  · cases h270 : calculateSolarTerm lon year 270 with
    | none => rw [h270] at hh; simp at hh
    | some pd =>
      rw [h270] at hh
      simp at hh
      subst hh
      exact ⟨pd.month, pd.day, formatDate_year pd year (hs270 pd h270)⟩

/-- Mother's Day always resolves, to a date in May of the query year. -/
theorem getNthWeekdayOfMonth_may (year : Nat) (hy : 1 ≤ year) :
    getNthWeekdayOfMonth year 5 6 2
      = some ⟨year, 5, (6 + 7 - pyWeekday ⟨year, 5, 1⟩) % 7 + 7 + 1⟩ := by
  have h := getNthWeekdayOfMonth_eq year 5 6 2 hy (by omega) (by omega) (by omega) (by omega)
  have hdim : daysInMonth year 5 = 31 := by simp [daysInMonth]
  rw [h, if_pos (by omega)]

/-- Every floating holiday's date is a `formatDate` of a date in the
query year. -/
theorem getFloatingHolidays_format (year : Nat) (hy : 1 ≤ year) :
    ∀ h ∈ getFloatingHolidays year, ∃ m d, h.date = formatDate ⟨year, m, d⟩ := by
  intro h hh
  unfold getFloatingHolidays at hh
  rw [getNthWeekdayOfMonth_may year hy] at hh
  simp at hh
  subst hh
  exact ⟨5, (6 + 7 - pyWeekday ⟨year, 5, 1⟩) % 7 + 7 + 1, rfl⟩

/-- C1: for a query year in [1900, 2100] (fresh cache entry) and oracles
that resolve every lunar table entry into the query year (with Lunar New
Year inside its sanity window) and whose solar-term dates land in the
query year, the computed result set is non-empty, every holiday's date
string is the formatted form of a date whose year is the query year, and
the list is sorted ascending by date string. -/
theorem holidays_year_invariant (O : Oracles) (c : List (String × List Holiday))
    (year : Nat) (hy1 : 1900 ≤ year) (hy2 : year ≤ 2100)
    (hc : cacheLookup c ("taiwan" ++ "_" ++ Nat.repr year) = none)
    (hlun : ∀ e ∈ lunarHolidaysDef, ∃ sd, O.toSolar year e.1 e.2.1 = some sd ∧
      sd.year = year)
    (hwin : ∀ ly ∈ [year - 1, year], ∀ sd, O.toSolar ly 1 1 = some sd → sd.year = year →
      (sd.month = 1 ∧ 21 ≤ sd.day ∧ sd.day ≤ 31)
        ∨ (sd.month = 2 ∧ 1 ≤ sd.day ∧ sd.day ≤ 20))
    (hs15 : ∀ pd, calculateSolarTerm O.sunLon year 15 = some pd → pd.year = year)
    (hs270 : ∀ pd, calculateSolarTerm O.sunLon year 270 = some pd → pd.year = year) :
    (getHolidaysForYear O c year "taiwan").1 ≠ []
    ∧ (∀ h ∈ (getHolidaysForYear O c year "taiwan").1,
        ∃ m d, h.date = formatDate ⟨year, m, d⟩)
    ∧ List.Pairwise dateOrder (getHolidaysForYear O c year "taiwan").1 := by
  have hres : (getHolidaysForYear O c year "taiwan").1
      = (getFixedHolidays year ++ getLunarHolidays O year ++
          getSolarTermHolidays O.sunLon year ++ getFloatingHolidays year).insertionSort
            dateOrder := by
    unfold getHolidaysForYear
    simp only [hc]
    rfl
  have hperm := List.perm_insertionSort dateOrder
    (getFixedHolidays year ++ getLunarHolidays O year ++
      getSolarTermHolidays O.sunLon year ++ getFloatingHolidays year)
  refine ⟨?_, ?_, ?_⟩
  · rw [hres]
    have hmem : (⟨"元旦", Nat.repr year ++ "-01-01", .national, true, none⟩ : Holiday)
        ∈ getFixedHolidays year := by
      unfold getFixedHolidays
      exact List.mem_cons_self _ _
    exact List.ne_nil_of_mem (hperm.mem_iff.mpr (List.mem_append.mpr (Or.inl
      (List.mem_append.mpr (Or.inl (List.mem_append.mpr (Or.inl hmem)))))))
  · intro h hh
    rw [hres] at hh
    have hm := hperm.mem_iff.mp hh
    rcases List.mem_append.mp hm with hm1 | hm1
    · rcases List.mem_append.mp hm1 with hm2 | hm2
      · rcases List.mem_append.mp hm2 with hm3 | hm3
        · exact getFixedHolidays_format year h hm3
        · exact getLunarHolidays_format O year hlun hwin h hm3
      · exact getSolarTermHolidays_format O.sunLon year hs15 hs270 h hm2
    · exact getFloatingHolidays_format year (by omega) h hm1
  · rw [hres]
    exact List.sorted_insertionSort dateOrder _

/-- A converging step of the bisection returns the midpoint. -/
theorem stRun_hit (lon : ℚ → Option ℚ) (tR low high : ℚ) (fuel : Nat) (cl : ℚ)
    (hl : lon ((low + high) / 2) = some cl)
    (hconv : |normDiff (cl - tR)| < 1 / 10000) :
    stRun lon tR (fuel + 1) low high = some ((low + high) / 2) := by
  simp only [stRun]
  rw [hl]
  dsimp only
  rw [if_pos hconv]

/-- The bisection returns the first midpoint when the oracle hits the
target longitude exactly there. -/
theorem stRun_first_hit (lon : ℚ → Option ℚ) (tR low high : ℚ)
    (hl : lon ((low + high) / 2) = some tR) :
    stRun lon tR 50 low high = some ((low + high) / 2) := by
  have hz : normDiff (tR - tR) = 0 := by
    rw [show tR - tR = 0 from by ring]
    unfold normDiff
    rw [if_neg (by norm_num [piF]), if_neg (by norm_num [piF])]
  exact stRun_hit lon tR low high 49 tR hl (by rw [hz]; norm_num)

/-- The midpoint of the ±45-day bracket is the seed instant itself. -/
theorem mid_bracket_eq (o : Int) :
    (ephemOfOrd (o - 45) + ephemOfOrd (o + 45)) / 2 = ephemOfOrd o := by
  unfold ephemOfOrd
  push_cast
  ring

theorem ephemToOrd_ephemOfOrd (o : Int) : ephemToOrd (ephemOfOrd o) = o := by
  unfold ephemToOrd ephemOfOrd
  rw [show ((o : ℚ)) - 693595 - 1 / 2 + 693595 + 1 / 2 = ((o : ℚ)) from by ring]
  show ⌊((o : ℚ))⌋ = o
  exact Int.floor_intCast o

theorem ephemDate_ephemOfOrd (o : Int) (ho : 1 ≤ o) :
    ephemDate (ephemOfOrd o) = some (ordToDate o.toNat) := by
  unfold ephemDate
  dsimp only
  rw [ephemToOrd_ephemOfOrd]
  rw [if_neg (by omega)]

/-- Evaluation of the 2025 Qingming date under the concrete oracle. -/
theorem qingming2025 :
    calculateSolarTerm oracles2025.sunLon 2025 15 = some ⟨2025, 3, 1⟩ := by
  unfold calculateSolarTerm
  rw [if_neg (by omega)]
  dsimp only
  rw [if_pos (show (15 : ℚ) < 90 from by norm_num)]
  rw [show ((toOrdinal ⟨2025, 3, 1⟩ : Nat) : Int) = 739311 from by decide]
  have hmid := mid_bracket_eq 739311
  have hlon : oracles2025.sunLon
      ((ephemOfOrd ((739311 : Int) - 45) + ephemOfOrd ((739311 : Int) + 45)) / 2)
      = some (radiansQ 15) := by
    rw [hmid]
    show some (if ephemOfOrd (739311 : Int) < 45900 then radiansQ 15 else radiansQ 270)
      = some (radiansQ 15)
    rw [if_pos ?_]
    unfold ephemOfOrd
    push_cast
    norm_num
  rw [stRun_first_hit _ _ _ _ hlon]
  simp only [Option.some_bind]
  rw [hmid, ephemDate_ephemOfOrd 739311 (by omega)]
  decide

/-- Evaluation of the 2025 Dongzhi date under the concrete oracle. -/
theorem dongzhi2025 :
    calculateSolarTerm oracles2025.sunLon 2025 270 = some ⟨2025, 12, 1⟩ := by
  unfold calculateSolarTerm
  rw [if_neg (by omega)]
  dsimp only
  rw [if_neg (show ¬ ((270 : ℚ) < 90) from by norm_num),
    if_neg (show ¬ ((270 : ℚ) < 180) from by norm_num),
    if_neg (show ¬ ((270 : ℚ) < 270) from by norm_num)]
  rw [show ((toOrdinal ⟨2025, 12, 1⟩ : Nat) : Int) = 739586 from by decide]
  have hmid := mid_bracket_eq 739586
  have hlon : oracles2025.sunLon
      ((ephemOfOrd ((739586 : Int) - 45) + ephemOfOrd ((739586 : Int) + 45)) / 2)
      = some (radiansQ 270) := by
    rw [hmid]
    show some (if ephemOfOrd (739586 : Int) < 45900 then radiansQ 15 else radiansQ 270)
      = some (radiansQ 270)
    rw [if_neg ?_]
    unfold ephemOfOrd
    push_cast
    norm_num
  rw [stRun_first_hit _ _ _ _ hlon]
  simp only [Option.some_bind]
  rw [hmid, ephemDate_ephemOfOrd 739586 (by omega)]
  decide

/-- C1 witness: the year invariant instantiated at 2025 with the concrete
2025 oracle and an empty cache; all oracle hypotheses are discharged on
the concrete tables. -/
theorem holidays_year_invariant_witness :
    (getHolidaysForYear oracles2025 [] 2025 "taiwan").1 ≠ []
    ∧ (∀ h ∈ (getHolidaysForYear oracles2025 [] 2025 "taiwan").1,
        ∃ m d, h.date = formatDate ⟨2025, m, d⟩)
    ∧ List.Pairwise dateOrder (getHolidaysForYear oracles2025 [] 2025 "taiwan").1 := by
  refine holidays_year_invariant oracles2025 [] 2025 (by norm_num) (by norm_num)
    rfl ?_ ?_ ?_ ?_
  · intro e he
    simp only [lunarHolidaysDef, List.mem_cons, List.not_mem_nil, or_false] at he
    rcases he with h1 | h1 | h1 | h1 | h1 | h1 | h1 | h1 | h1 <;> subst h1 <;>
      exact ⟨_, rfl, rfl⟩
  · intro ly hly sd h _
    simp only [List.mem_cons, List.not_mem_nil, or_false] at hly
    rcases hly with h1 | h1 <;> subst h1
    · have h2 : (none : Option PDate) = some sd := h
      exact Option.noConfusion h2
    · have h2 : some (⟨2025, 1, 29⟩ : PDate) = some sd := h
      injection h2 with h3
      subst h3
      refine Or.inl ⟨rfl, by norm_num, by norm_num⟩
  · intro pd h
    rw [qingming2025] at h
    injection h with h2
    subst h2
    rfl
  · intro pd h
    rw [dongzhi2025] at h
    injection h with h2
    subst h2
    rfl
